import Mathlib

/-!
Formal model of the Text-to-SQL conversational workflow engine.

Python strings are embedded as `List Char` for the character-level SQL
validators and as `String` (a wrapper around `List Char`) in the workflow
data model.  Machine-specific aspects (timestamps, logging) are omitted;
the LLM capability and the SIC-code mapper are external collaborators and
appear as explicit function parameters.  Python `dict`s holding a fixed
field set are embedded as records, with a missing key identified with an
explicit `None` (both read back as `None` through `dict.get`).
-/

namespace TextToSql

/-! ## Python string primitives (on `List Char`) -/

/-- Python's whitespace set used by `str.strip` / `str.rstrip`. -/
def isWS (c : Char) : Bool :=
  c = ' ' || c = '\t' || c = '\n' || c = '\r' || c = '\x0b' || c = '\x0c'

/-- `str.lstrip()` on a character list. -/
def lstripWs (l : List Char) : List Char := l.dropWhile isWS

/-- `str.rstrip()` on a character list. -/
def rstripWs (l : List Char) : List Char := (l.reverse.dropWhile isWS).reverse

/-- `str.strip()` on a character list. -/
def stripWs (l : List Char) : List Char := rstripWs (lstripWs l)

/-- `str.rstrip(';')` on a character list. -/
def rstripSemi (l : List Char) : List Char := (l.reverse.dropWhile (· = ';')).reverse

/-- Occurrences of a character (`str.count` for a single character). -/
def countCh (ch : Char) (l : List Char) : Nat := l.count ch

/-- `a` is a (plain) prefix of `b`, as a Boolean. -/
def prefixOf : List Char → List Char → Bool
  | [], _ => true
  | _ :: _, [] => false
  | a :: as, b :: bs => a = b && prefixOf as bs

/-- Python's substring test `p in s`, as a Boolean. -/
def containsSub (p : List Char) : List Char → Bool
  | [] => prefixOf p []
  | s@(_ :: rest) => prefixOf p s || containsSub p rest

/-- Index of the first occurrence of `p` in `s` (Python `str.find`, with
`none` for `-1`). -/
def findSub (p : List Char) : List Char → Option Nat
  | [] => if prefixOf p [] then some 0 else none
  | s@(_ :: rest) =>
    if prefixOf p s then some 0
    else (findSub p rest).map (· + 1)

/-- Number of non-overlapping occurrences of `p` in `s` (Python `str.count`
for a non-empty pattern; occurrences of the six-letter keywords counted
here cannot overlap, so the plain left-to-right count is used). -/
def countSub (p : List Char) : List Char → Nat
  | [] => 0
  | s@(_ :: rest) => (if prefixOf p s then 1 else 0) + countSub p rest

/-- `str.split(sep)` for a single-character separator (keeps empty parts,
like Python's `split` with an explicit separator). -/
def splitCh (sep : Char) : List Char → List (List Char)
  | [] => [[]]
  | c :: r =>
    if c = sep then [] :: splitCh sep r
    else
      match splitCh sep r with
      | p :: ps => (c :: p) :: ps
      | [] => [[c]]

/-- `sep.join(parts)` for a single-character separator. -/
def joinCh (sep : Char) : List (List Char) → List Char
  | [] => []
  | [p] => p
  | p :: ps => p ++ sep :: joinCh sep ps

/-- A part is non-empty in the sense of holding at least one
non-whitespace character. -/
def nonBlank (p : List Char) : Bool := p.any (fun c => !(isWS c))

/-! ## String-level wrappers used by the workflow model -/

/-- A single-quote character, used to build SQL fragments. -/
def sq : String := String.mk ['\'']

/-- Python `str.strip()`. -/
def pyStrip (s : String) : String := String.mk (stripWs s.data)

/-- Python `str.lower()` (ASCII, as used by the source on field values). -/
def pyLower (s : String) : String := String.mk (s.data.map Char.toLower)

/-- Python `str.upper()` (ASCII). -/
def pyUpper (s : String) : String := String.mk (s.data.map Char.toUpper)

/-- Python `p in s` substring test at the `String` level. -/
def strIn (p s : String) : Bool := containsSub p.data s.data

/-- Python truthiness of an optional string (`None` and `""` are falsy). -/
def truthy : Option String → Bool
  | none => false
  | some s => !(s = "")

/-! ## `SQLInjectionValidator._remove_comments`

The Python helper (src/utils/text_to_sql/sql_injection_validator.py) first
removes `--` line comments line by line, tracking quoted strings with a
small scanner, then removes `/*...*/` block comments with the non-greedy
regex `re.sub(r'/\x2a.*?\x2a/', '', ..., DOTALL)`. -/

/-- The per-line scanner: walks the characters of one line carrying the
previous character, the in-string flag and the active quote character, and
returns the index of the first `--` occurring outside a quoted string
(`comment_pos` in the source), if any.  A quote not preceded by a
backslash toggles the string state; a `-` at the very last index cannot
start a comment (the source requires `i < len(line) - 1`). -/
def quoteStep (c : Char) (inStr : Bool) (qc : Option Char) : Bool × Option Char :=
  if !inStr then (true, some c)
  else if some c = qc then (false, none)
  else (inStr, qc)

def scanCmt : List Char → Option Char → Bool → Option Char → Option Nat
  | [], _, _, _ => none
  | c :: r, prev, inStr, qc =>
    if (c = '\'' || c = '"') && !(prev = some '\\') then
      (scanCmt r (some c) (quoteStep c inStr qc).1 (quoteStep c inStr qc).2).map (· + 1)
    else if !inStr && c = '-' && r.head? = some '-' then some 0
    else (scanCmt r (some c) inStr qc).map (· + 1)

/-- One line of the `--`-removal loop: truncate at the first unquoted `--`
and right-strip trailing whitespace, or keep the line unchanged. -/
def lineStrip (line : List Char) : List Char :=
  match scanCmt line none false none with
  | some i => rstripWs (line.take i)
  | none => line

/-- State of the block-comment automaton: scanning normally, scanning with
a pending `/`, inside a comment, or inside a comment with a pending `*`.
The accumulator holds (reversed) the text consumed since the opening `/*`
so it can be restored verbatim when no closing `*/` follows. -/
inductive BMode : Type
  | n : BMode
  | nSlash : BMode
  | c (acc : List Char) : BMode
  | cStar (acc : List Char) : BMode

/-- Non-greedy removal of `/*...*/` spans: each leftmost `/*` is paired
with the nearest following `*/` and the span is deleted; an unmatched
trailing `/*` is kept verbatim.  This is the behaviour of
`re.sub(r'/\x2a.*?\x2a/', '', query, flags=re.DOTALL)`. -/
def goB : BMode → List Char → List Char
  | .n, [] => []
  | .nSlash, [] => ['/']
  | .c acc, [] => acc.reverse
  | .cStar acc, [] => acc.reverse
  | .n, ch :: r => if ch = '/' then goB .nSlash r else ch :: goB .n r
  | .nSlash, ch :: r =>
    if ch = '*' then goB (.c ['*', '/']) r
    else if ch = '/' then '/' :: goB .nSlash r
    else '/' :: ch :: goB .n r
  | .c acc, ch :: r =>
    if ch = '*' then goB (.cStar ('*' :: acc)) r else goB (.c (ch :: acc)) r
  | .cStar acc, ch :: r =>
    if ch = '/' then goB .n r
    else if ch = '*' then goB (.cStar ('*' :: acc)) r
    else goB (.c (ch :: acc)) r

/-- Block-comment removal on a whole text. -/
def blockRemove (l : List Char) : List Char := goB .n l

/-- The characters an automaton state may still emit besides its input
(used to track character provenance through `goB`). -/
def modeChars : BMode → List Char
  | .n => []
  | .nSlash => ['/']
  | .c acc => acc
  | .cStar acc => acc

/-- The text contains an adjacent `/*` pair (a block-comment opener). -/
def hasOpenB : List Char → Bool
  | [] => false
  | c :: r => (c = '/' && r.head? = some '*') || hasOpenB r

/-- `SQLInjectionValidator._remove_comments`: split into lines, strip `--`
comments per line, re-join, then remove `/*...*/` spans. -/
def remove_comments (query : List Char) : List Char :=
  blockRemove (joinCh '\n' ((splitCh '\n' query).map lineStrip))

/-- `_remove_comments` at the `String` level. -/
def removeCommentsS (query : String) : String := String.mk (remove_comments query.data)

/-! ## `SQLInjectionValidator` pattern checks -/

/-- `SQLInjectionValidator.INJECTION_PATTERNS`, verbatim from the source
(note: the list holds no `UNION SELECT` entry). -/
def INJECTION_PATTERNS : List (List Char) :=
  [ "; DROP".data
  , "; DELETE".data
  , "; INSERT".data
  , "; UPDATE".data
  , "; TRUNCATE".data
  , "; ALTER".data
  , "; CREATE".data
  , "OR 1=1".data
  , ("OR " ++ sq ++ "1" ++ sq ++ "=" ++ sq ++ "1" ++ sq).data
  , "OR \"1\"=\"1\"".data
  , "EXEC(".data
  , "EXECUTE(".data
  , "xp_".data
  , "sp_".data ]

/-- `SQLInjectionValidator.DANGEROUS_STATEMENT_PATTERNS`. -/
def DANGEROUS_STATEMENT_PATTERNS : List (List Char) :=
  [ "DELETE FROM".data
  , "DROP TABLE".data
  , "DROP DATABASE".data
  , "INSERT INTO".data
  , "UPDATE SET".data
  , "TRUNCATE TABLE".data
  , "ALTER TABLE".data
  , "CREATE TABLE".data ]

/-- The special handling of a matched `UNION SELECT` pattern
(sql_injection_validator.py lines 63-75): a `UNION` with at least one
`SELECT` on each side is allowed (`continue`), anything else is rejected.
Python's `find` returns `-1` when absent, slicing `[:-1]` / `[-1:]`. -/
def unionSelectVerdict (qUpper : List Char) : Bool :=
  let unionPos : Nat :=
    match findSub "UNION".data qUpper with
    | some i => i
    | none => qUpper.length - 1
  let selBefore := countSub "SELECT".data (qUpper.take unionPos)
  let selAfter := countSub "SELECT".data (qUpper.drop unionPos)
  1 ≤ selBefore && 1 ≤ selAfter

/-- The injection-pattern loop: first matching pattern rejects, except a
legitimate `UNION SELECT` which is skipped. -/
def injLoop (qUpper : List Char) : List (List Char) → Option (List Char)
  | [] => none
  | pat :: rest =>
    if containsSub pat qUpper then
      if pat = "UNION SELECT".data then
        if unionSelectVerdict qUpper then injLoop qUpper rest
        else some "UNION SELECT".data
      else some pat
    else injLoop qUpper rest

/-- The dangerous-statement loop: first matching pattern rejects. -/
def dangerLoop (qUpper : List Char) : List (List Char) → Option (List Char)
  | [] => none
  | pat :: rest =>
    if containsSub pat qUpper then some pat else dangerLoop qUpper rest

/-- First word of a pattern (`pattern.split()[0]` on the fixed two-word
dangerous patterns). -/
def firstWord (p : List Char) : List Char := p.takeWhile (fun c => !(c = ' '))

/-- `SQLInjectionValidator.check_injection_patterns`. -/
def check_injection_patterns (query : List Char) : Bool × List Char :=
  let queryCleaned := remove_comments query
  let qUpper := queryCleaned.map Char.toUpper
  match injLoop qUpper INJECTION_PATTERNS with
  | some pat => (false, "Potential SQL injection detected: ".data ++ pat)
  | none =>
    match dangerLoop qUpper DANGEROUS_STATEMENT_PATTERNS with
    | some pat => (false, "Dangerous operation detected: ".data ++ firstWord pat)
    | none => (true, [])

/-- The multiple-statements failure message for a reported statement
count. -/
def multiMsg (n : Nat) : List Char :=
  "Multiple SQL statements detected (".data ++ (toString n).data
    ++ " found). Only single SELECT queries are allowed.".data

/-- The semicolon count `check_multiple_statements` bases its verdict on:
comments stripped, surrounding whitespace and a trailing run of
semicolons dropped. -/
def semiCountOf (query : List Char) : Nat :=
  countCh ';' (stripWs (rstripSemi (stripWs (remove_comments query))))

/-- `SQLInjectionValidator.check_multiple_statements`: strip comments,
drop surrounding whitespace and a trailing run of semicolons, and reject
when a semicolon remains. -/
def check_multiple_statements (query : List Char) : Bool × List Char :=
  if 0 < semiCountOf query then (false, multiMsg (semiCountOf query + 1))
  else (true, [])

/-- A character that keeps a semicolon-delimited part non-blank and is
not itself a separator. -/
def goodCh (c : Char) : Bool := !(isWS c) && !(c = ';')

/-- The text holds a `;` followed (not necessarily adjacently) by a
non-blank non-semicolon character — the shape that survives the
trailing-semicolon stripping of `check_multiple_statements`. -/
def hasQ : List Char → Bool
  | [] => false
  | c :: r => (c = ';' && r.any goodCh) || hasQ r

/-! ## `SQLValidator.validate`

The tail of `validate` parses the query with the external `sqlparse`
library and checks the parsed statements; that external stage is the
`parsedChecks` parameter.  Everything up to it — the empty check, the
SELECT/WITH prefix check and the multiple-statement check — is embedded
from the source. -/

/-- `SQLValidator.validate` (sql_validator.py lines 49-64) up to the
`sqlparse` stage. -/
def validate (parsedChecks : List Char → Bool × List Char) (query : List Char) :
    Bool × List Char :=
  if query = [] || stripWs query = [] then (false, "Query is empty".data)
  else
    let qUpper := (stripWs query).map Char.toUpper
    if !(prefixOf "SELECT".data qUpper || prefixOf "WITH".data qUpper) then
      (false, ("Only SELECT queries are allowed. Query must start with SELECT or WITH "
        ++ "(for CTEs)").data)
    else
      match check_multiple_statements query with
      | (false, err) => (false, err)
      | (true, _) => parsedChecks query

/-! ## `value_utils` -/

/-- `is_empty_value`: `None`, falsy strings, and the textual null markers
count as empty. -/
def is_empty_value : Option String → Bool
  | none => true
  | some s =>
    if s = "" then true
    else pyStrip (pyLower s) ∈ (["null", "none", "", "not specified"] : List String)

/-! ## `TitleTierMapper`

The three keyword tiers come from an external configuration file and are
carried as explicit parameters. -/

structure TitleTierCfg : Type where
  tier_i_keywords : List String
  tier_ii_keywords : List String
  tier_iii_keywords : List String

/-- One tier check: the normalized title contains, or is contained in, a
keyword of the tier. -/
def tierMatches (normalized : String) (keywords : List String) : Bool :=
  keywords.any (fun k => strIn k normalized || strIn normalized k)

/-- `TitleTierMapper.match_title_to_tier` (the source's `normalized` is
`pyStrip (pyLower title_keyword)`, inlined here). -/
def match_title_to_tier (cfg : TitleTierCfg) (title_keyword : String) : Option String :=
  if title_keyword = "" then none
  else if tierMatches (pyStrip (pyLower title_keyword)) cfg.tier_i_keywords then some "tier_i"
  else if tierMatches (pyStrip (pyLower title_keyword)) cfg.tier_ii_keywords then some "tier_ii"
  else if tierMatches (pyStrip (pyLower title_keyword)) cfg.tier_iii_keywords then some "tier_iii"
  else none

/-- `TitleTierMapper.generate_title_sql_condition`. -/
def generate_title_sql_condition (cfg : TitleTierCfg) (title_keyword : String) :
    Option String :=
  if title_keyword = "" then none
  else
    match match_title_to_tier cfg title_keyword with
    | some tier => some ("title_tier = " ++ sq ++ tier ++ sq)
    | none => none

/-- A tier atom: exactly the condition text `title_tier = '<t>'` for one
of the three fixed tier names; no other text, in particular no
user-supplied text, occurs in it. -/
def isTierAtom (s : String) : Prop :=
  ∃ t, t ∈ (["tier_i", "tier_ii", "tier_iii"] : List String)
    ∧ s = "title_tier = " ++ sq ++ t ++ sq

/-- A well-formed stored title condition: a single tier atom, or a
parenthesized `OR` of at least two distinct tier atoms. -/
def goodTitleCond (s : String) : Prop :=
  isTierAtom s
    ∨ ∃ l, 2 ≤ l.length ∧ l.Nodup ∧ (∀ x ∈ l, isTierAtom x)
        ∧ s = "(" ++ String.intercalate " OR " l ++ ")"

/-! ## Workflow data model (src/workflows/state.py)

`datetime` timestamps and the unused `last_extraction_confidence` /
`ambiguities_resolved` fields are omitted; no modelled operation reads
them. -/

/-- One entry of the `messages` list. -/
structure Message : Type where
  role : String
  content : String
  deriving DecidableEq, Repr

/-- `ExtractedInfo`: the fixed seven-field record, each field an optional
free-text value. -/
structure ExtractedInfo : Type where
  geography : Option String := none
  industry : Option String := none
  target_customer_type : Option String := none
  title : Option String := none
  employee_size : Option String := none
  square_footage : Option String := none
  sales_volume : Option String := none
  deriving DecidableEq, Repr

/-- `get_empty_extracted_info`. -/
def get_empty_extracted_info : ExtractedInfo := {}

/-- The `(name, value)` pairs of an extracted-info record, in the
insertion order the source dictionaries use. -/
def fieldsOf (i : ExtractedInfo) : List (String × Option String) :=
  [ ("geography", i.geography)
  , ("industry", i.industry)
  , ("target_customer_type", i.target_customer_type)
  , ("title", i.title)
  , ("employee_size", i.employee_size)
  , ("square_footage", i.square_footage)
  , ("sales_volume", i.sales_volume) ]

/-- `ConversationTurn` (without its wall-clock timestamp). -/
structure ConversationTurn : Type where
  role : String
  content : String
  extracted_info_snapshot : Option ExtractedInfo := none
  question_asked : Option String := none
  deriving DecidableEq, Repr

/-- A recorded field correction. -/
structure Correction : Type where
  field : String
  old_value : String
  new_value : String
  deriving DecidableEq, Repr

/-- `ConversationContext`.  The `answers_received` dict is embedded as an
association list with first-key lookup. -/
structure ConversationContext : Type where
  recent_turns : List ConversationTurn := []
  questions_asked : List String := []
  answers_received : List (String × String) := []
  corrections_made : List Correction := []
  update_requests : List String := []
  deriving DecidableEq, Repr

/-- Dict lookup on the answers association list. -/
def lookupAns (q : String) (ans : List (String × String)) : Option String :=
  (ans.find? (fun p => p.1 = q)).map (·.2)

/-- The structured output of the extraction capability
(`ExtractedInfoWithMentioned` in src/workflows/models.py). -/
structure ExtractedInfoWithMentioned : Type where
  geography : Option String := none
  industry : Option String := none
  target_customer_type : Option String := none
  title : Option String := none
  employee_size : Option String := none
  square_footage : Option String := none
  sales_volume : Option String := none
  geography_mentioned : Bool := false
  industry_mentioned : Bool := false
  title_mentioned : Bool := false
  employee_size_mentioned : Bool := false
  square_footage_mentioned : Bool := false
  sales_volume_mentioned : Bool := false
  target_customer_type_mentioned : Bool := false
  deriving DecidableEq, Repr

/-- The `extracted_dict` built from a structured extraction result. -/
def toExtractedInfo (e : ExtractedInfoWithMentioned) : ExtractedInfo :=
  { geography := e.geography
    industry := e.industry
    target_customer_type := e.target_customer_type
    title := e.title
    employee_size := e.employee_size
    square_footage := e.square_footage
    sales_volume := e.sales_volume }

/-- One entry of `extraction_history`. -/
structure ExtractionAttempt : Type where
  input : String
  extracted : ExtractedInfo
  is_update : Bool
  deriving DecidableEq, Repr

/-- The resolved industry context (`sic_context` dict). -/
structure SicContext : Type where
  industry_input : String
  codes : List String
  rationale : String
  deriving DecidableEq, Repr

/-- `WorkflowState` (state.py), with the workflow mode as its literal
string tag. -/
structure WorkflowState : Type where
  messages : List Message := []
  conversation_history : List ConversationTurn := []
  conversation_context : ConversationContext := {}
  extracted_info : ExtractedInfo := {}
  extraction_history : List ExtractionAttempt := []
  missing_fields : List String := []
  sql_query : Option String := none
  sql_valid : Option Bool := none
  sql_error : Option String := none
  sic_context : Option SicContext := none
  title_sql_condition : Option String := none
  mentioned_fields : List String := []
  workflow_state : String := "extracting"
  needs_human_input : Bool := false
  current_question : Option String := none
  deriving DecidableEq, Repr

/-- The structured output of the clarification capability
(`QuestionResponse`). -/
structure QuestionResponse : Type where
  needs_clarification : Bool
  question : Option String := none
  deriving DecidableEq, Repr

/-- The structured output of the SIC-mapping capability
(`IndustrySICMapping`, after its code-validation hook). -/
structure SicMapping : Type where
  codes : List String
  rationale : Option String := none
  deriving DecidableEq, Repr

/-- Configuration values read through `get_workflow_settings`, carried as
explicit parameters (defaults in parentheses in the source). -/
structure Config : Type where
  max_conversation_turns : Nat := 15
  conversation_history_limit : Nat := 10
  exclusion_check_turns : Nat := 5
  max_contextual_questions_before_sql : Nat := 1
  min_question_length : Nat := 10
  max_corrections_to_keep : Nat := 5
  max_updates_to_keep : Nat := 5
  deriving Repr

/-- Python's negative-slice tail `l[-n:]` (the whole list when `n ≥ len`). -/
def takeLast {α : Type} (n : Nat) (l : List α) : List α :=
  l.drop (l.length - n)

/-- `list(set(..))` on strings, embedded as first-occurrence
deduplication (Python's set order is unspecified; no modelled property
depends on the order, only on membership and distinctness). -/
def dedupGo (seen : List String) : List String → List String
  | [] => []
  | x :: xs => if x ∈ seen then dedupGo seen xs else x :: dedupGo (x :: seen) xs

def dedupL (l : List String) : List String := dedupGo [] l

/-! ## Conversation memory (src/workflows/memory.py) -/

/-- `update_conversation_memory`: append the new turn, then prune to the
configured bound. -/
def update_conversation_memory (cfg : Config) (history : List ConversationTurn)
    (role content : String) (snapshot : Option ExtractedInfo)
    (question_asked : Option String) : List ConversationTurn :=
  let updated := history ++ [⟨role, content, snapshot, question_asked⟩]
  if cfg.max_conversation_turns < updated.length then
    takeLast cfg.max_conversation_turns updated
  else updated

/-- `track_question_answer`. -/
def track_question_answer (ctx : ConversationContext) (question : String)
    (answer : Option String) : ConversationContext :=
  let ctx :=
    if question ∈ ctx.questions_asked then ctx
    else { ctx with questions_asked := ctx.questions_asked ++ [question] }
  match answer with
  | some a => if a = "" then ctx else { ctx with answers_received := ctx.answers_received ++ [(question, a)] }
  | none => ctx

/-- The update-intent keywords of `update_conversation_context`. -/
def updateIntentKeywords : List String := ["update", "change", "modify", "edit", "revise"]

/-- Stage 1 of `update_conversation_context`: record a newly asked
question from an assistant turn. -/
def trackQuestionStage (ctx : ConversationContext) (turn : ConversationTurn) :
    ConversationContext :=
  if turn.role = "assistant" && truthy turn.question_asked then
    match turn.question_asked with
    | some q =>
      if q ∈ ctx.questions_asked then ctx
      else { ctx with questions_asked := ctx.questions_asked ++ [q] }
    | none => ctx
  else ctx

/-- Stage 2: match a user turn's content to the most recently asked
question with no recorded answer (the source iterates
`reversed(context.questions_asked)` and breaks at the first hit). -/
def trackAnswerStage (ctx : ConversationContext) (turn : ConversationTurn) :
    ConversationContext :=
  if turn.role = "user" && !ctx.questions_asked.isEmpty then
    match ctx.questions_asked.reverse.find?
        (fun q => (lookupAns q ctx.answers_received).isNone) with
    | some q => { ctx with answers_received := ctx.answers_received ++ [(q, turn.content)] }
    | none => ctx
  else ctx

/-- Stage 3: diff the previous and current extracted records into
corrections (both values truthy, non-empty, and different). -/
def trackCorrectionsStage (ctx : ConversationContext) (turn : ConversationTurn)
    (extracted : ExtractedInfo) (prev : Option ExtractedInfo) : ConversationContext :=
  match prev with
  | some prevInfo =>
    if turn.role = "user" then
      let corrections := (fieldsOf extracted).filterMap (fun kv =>
        let old := (fieldsOf prevInfo).lookup kv.1 |>.join
        match old, kv.2 with
        | some o, some n =>
          if o ≠ "" && n ≠ "" && o ≠ n
              && !is_empty_value (some o) && !is_empty_value (some n) then
            some (⟨kv.1, o, n⟩ : Correction)
          else none
        | _, _ => none)
      if corrections.isEmpty then ctx
      else { ctx with corrections_made := ctx.corrections_made ++ corrections }
    else ctx
  | none => ctx

/-- Stage 4: record a user turn carrying an update-intent keyword. -/
def trackUpdateReqStage (ctx : ConversationContext) (turn : ConversationTurn) :
    ConversationContext :=
  if turn.role = "user"
      && updateIntentKeywords.any (fun kw => strIn kw (pyLower turn.content)) then
    { ctx with update_requests := ctx.update_requests ++ [turn.content] }
  else ctx

/-- `update_conversation_context`: the four tracking stages in source
order. -/
def update_conversation_context (ctx : ConversationContext) (turn : ConversationTurn)
    (extracted : ExtractedInfo) (prev : Option ExtractedInfo) : ConversationContext :=
  trackUpdateReqStage
    (trackCorrectionsStage (trackAnswerStage (trackQuestionStage ctx turn) turn)
      turn extracted prev) turn

/-! ## Extraction nodes (src/workflows/nodes/extraction.py)

The LLM capability's structured result is the `llmResult` parameter;
`none` stands for a capability failure (exception).  Prompt construction
does not touch the state and is not modelled. -/

/-- The `mentioned_fields` list built from the mentioned flags (insertion
order of the source's set-adds; downstream code only tests membership). -/
def mentionedOf (e : ExtractedInfoWithMentioned) : List String :=
  (if e.geography_mentioned then ["geography"] else [])
    ++ (if e.industry_mentioned then ["industry"] else [])
    ++ (if e.title_mentioned then ["title"] else [])
    ++ (if e.employee_size_mentioned then ["employee_size"] else [])
    ++ (if e.square_footage_mentioned then ["square_footage"] else [])
    ++ (if e.sales_volume_mentioned then ["sales_volume"] else [])
    ++ (if e.target_customer_type_mentioned then ["target_customer_type"] else [])

/-- Per-field update rule for update requests (lines 146-159): a
mentioned field takes the extracted value when truthy and non-empty, is
cleared when the extracted value is `None`, and otherwise keeps the
existing value; an unmentioned field always keeps the existing value. -/
def updApply (mentioned : Bool) (newV old : Option String) : Option String :=
  if mentioned then
    match newV with
    | none => none
    | some v => if truthy (some v) && !is_empty_value (some v) then some v else old
  else old

/-- Per-field update rule for new requests (lines 186-192): a mentioned
field takes the extracted value as is (even `None`); an unmentioned field
takes a truthy non-empty extracted value, else keeps the existing one. -/
def newApply (mentioned : Bool) (newV old : Option String) : Option String :=
  if mentioned then newV
  else if truthy newV && !is_empty_value newV then newV else old

/-- `extract_info_node`. -/
def extract_info_node (cfg : Config) (llmResult : Option ExtractedInfoWithMentioned)
    (state : WorkflowState) : WorkflowState :=
  match state.messages.getLast? with
  | none => state
  | some latest =>
    let user_input := latest.content
    if user_input = "" then state
    else
      let _ := cfg
      let is_update := state.sql_query.isSome
      match llmResult with
      | none =>
        -- capability failure: the fallback only replaces an absent/empty
        -- extracted-info dict with the all-`None` record, which the record
        -- embedding identifies with the value already held
        state
      | some extracted =>
        let extracted_dict := toExtractedInfo extracted
        let history := state.extraction_history
          ++ [⟨user_input, extracted_dict, is_update⟩]
        let mentioned := mentionedOf extracted
        let old := state.extracted_info
        let info : ExtractedInfo :=
          if is_update then
            { geography := updApply ("geography" ∈ mentioned) extracted_dict.geography old.geography
              industry := updApply ("industry" ∈ mentioned) extracted_dict.industry old.industry
              target_customer_type := updApply ("target_customer_type" ∈ mentioned)
                extracted_dict.target_customer_type old.target_customer_type
              title := updApply ("title" ∈ mentioned) extracted_dict.title old.title
              employee_size := updApply ("employee_size" ∈ mentioned)
                extracted_dict.employee_size old.employee_size
              square_footage := updApply ("square_footage" ∈ mentioned)
                extracted_dict.square_footage old.square_footage
              sales_volume := updApply ("sales_volume" ∈ mentioned)
                extracted_dict.sales_volume old.sales_volume }
          else
            { geography := newApply ("geography" ∈ mentioned) extracted_dict.geography old.geography
              industry := newApply ("industry" ∈ mentioned) extracted_dict.industry old.industry
              target_customer_type := newApply ("target_customer_type" ∈ mentioned)
                extracted_dict.target_customer_type old.target_customer_type
              title := newApply ("title" ∈ mentioned) extracted_dict.title old.title
              employee_size := newApply ("employee_size" ∈ mentioned)
                extracted_dict.employee_size old.employee_size
              square_footage := newApply ("square_footage" ∈ mentioned)
                extracted_dict.square_footage old.square_footage
              sales_volume := newApply ("sales_volume" ∈ mentioned)
                extracted_dict.sales_volume old.sales_volume }
        { state with
            extraction_history := history
            mentioned_fields := mentioned
            extracted_info := info
            workflow_state := "extracting" }

/-- The square-footage trigger keywords of `validate_completeness_node`. -/
def sqftKeywords : List String := ["pest control", "cleaning", "construction", "builder", "builders"]

/-- The explicitly-cleared short-circuit of `validate_completeness_node`
combined with the emptiness test for one field: `[name]` when the field
is to be reported missing, `[]` otherwise. -/
def missingGate (name : String) (mf : List String) (v : Option String) : List String :=
  if name ∈ mf && v = none then []
  else if is_empty_value v then [name] else []

/-- The required-field part of the missing list (geography, industry). -/
def requiredMissingOf (st : WorkflowState) : List String :=
  missingGate "geography" st.mentioned_fields st.extracted_info.geography
    ++ missingGate "industry" st.mentioned_fields st.extracted_info.industry

/-- The recommended-field part (title, employee_size; new requests only). -/
def recommendedMissingOf (st : WorkflowState) : List String :=
  if st.sql_query.isSome then []
  else
    missingGate "title" st.mentioned_fields st.extracted_info.title
      ++ missingGate "employee_size" st.mentioned_fields st.extracted_info.employee_size

/-- The conditional square-footage part, gated by the industry keywords. -/
def conditionalMissingOf (st : WorkflowState) : List String :=
  match st.extracted_info.industry with
  | none => []
  | some t =>
    if is_empty_value (some t) then []
    else if sqftKeywords.any (fun kw => strIn kw (pyLower t)) then
      if "square_footage" ∈ st.mentioned_fields && st.extracted_info.square_footage = none then []
      else if is_empty_value st.extracted_info.square_footage then
        if st.sql_query.isSome then [] else ["square_footage"]
      else []
    else []

/-- `validate_completeness_node`. -/
def validate_completeness_node (st : WorkflowState) : WorkflowState :=
  { st with missing_fields :=
      requiredMissingOf st ++ recommendedMissingOf st ++ conditionalMissingOf st }

/-! ## Clarification node (src/workflows/nodes/clarification.py)

The structured clarification decision is the `resp` parameter; `none`
stands for a capability failure, including the Pydantic rejection of a
decision with `needs_clarification` and no question text. -/

/-- The node's no-clarification outcome: suspend flag cleared, no pending
question, everything else untouched. -/
def noClarify (st : WorkflowState) : WorkflowState :=
  { st with needs_human_input := false, current_question := none }

/-- The `should_ask_contextual` flag (clarification.py lines 59-77). -/
def shouldAskContextual (cfg : Config) (st : WorkflowState) : Bool :=
  let missing := st.missing_fields
  let info := st.extracted_info
  let questionCount := st.conversation_context.questions_asked.length
  if st.sql_query.isSome && st.sql_valid = some true then true
  else if missing.isEmpty
      || (!missing.isEmpty && "title" ∈ missing && missing.length = 1) then
    truthy info.geography && truthy info.industry
      && !is_empty_value info.geography && !is_empty_value info.industry
      && questionCount < cfg.max_contextual_questions_before_sql
  else false

/-- The accepted, stripped question of a clarification decision together
with its acceptance test (lines 137-145). -/
def acceptedQuestion (cfg : Config) (r : QuestionResponse) : Option String :=
  if !truthy r.question
      || (pyStrip (r.question.getD "")).length < cfg.min_question_length then none
  else some (pyStrip (r.question.getD ""))

/-- `request_clarification_node`. -/
def request_clarification_node (cfg : Config) (resp : Option QuestionResponse)
    (st : WorkflowState) : WorkflowState :=
  if st.missing_fields.isEmpty && !shouldAskContextual cfg st then noClarify st
  else
    match resp with
    | none => noClarify st
    | some r =>
      if !r.needs_clarification then noClarify st
      else
        match acceptedQuestion cfg r with
        | none => noClarify st
        | some q =>
          { st with
              current_question := some q
              needs_human_input := true
              workflow_state := "clarifying"
              conversation_history := update_conversation_memory cfg st.conversation_history
                "assistant" q (some st.extracted_info) (some q)
              conversation_context := track_question_answer st.conversation_context q none }

/-! ## Mapping nodes (src/workflows/nodes/mapping.py) and update node

The industry mapper (`get_sic_codes_for_query`) is the external, cached
LLM capability; it is carried as the function parameter `mapper`, whose
`Except` error is the raised `IndustryNotFoundError` message. -/

/-- The exclusion-context keywords of `map_industry_node`. -/
def exclusionKeywords : List String :=
  [ "exclude", "filter out", "don" ++ sq ++ "t need", "don" ++ sq ++ "t want"
  , "not", "without", "avoid", "remove" ]

/-- Fallback rationale used when the mapping carries none. -/
def defaultRationale : String := "LLM provided these SIC codes based on domain knowledge."

/-- `map_industry_node`. -/
def map_industry_node (cfg : Config)
    (mapper : String → Option String → Except String SicMapping)
    (st : WorkflowState) : WorkflowState :=
  let info := st.extracted_info
  let industry := info.industry
  let tct := info.target_customer_type
  let mf := st.mentioned_fields
  let isUpd := st.sql_query.isSome
  if isUpd && "industry" ∉ mf && st.sic_context.isSome then st
  else if !truthy industry || is_empty_value industry then st
  else
    let it := industry.getD ""
    if isUpd && "industry" ∈ mf &&
        (match st.sic_context with
         | some ctx =>
           ctx.industry_input ≠ ""
             && pyStrip (pyLower ctx.industry_input) = pyStrip (pyLower it)
         | none => false) then st
    else
      let describe := fun (ind : String) =>
        if truthy tct && !is_empty_value tct then ind ++ " for " ++ tct.getD "" else ind
      let description := describe it
      if strIn "," it then
        let inds := (it.splitOn ",").map pyStrip
        let oks := inds.filterMap (fun ind =>
          match mapper (describe ind) none with
          | .ok m => some (describe ind, m)
          | .error _ => none)
        let allCodes := (oks.map (fun p => p.2.codes)).flatten
        let allMappings := oks.map (fun p => p.1 ++ ": " ++ String.intercalate ", " p.2.codes)
        let rationales := oks.filterMap (fun p =>
          match p.2.rationale with
          | some r => if r = "" then none else some (p.1 ++ ": " ++ r)
          | none => none)
        let combined :=
          if !rationales.isEmpty then
            "Multiple industries mapped:\n" ++ String.intercalate "\n\n" rationales
          else "Multiple industries mapped: " ++ String.intercalate "; " allMappings
        { st with sic_context := some ⟨description, dedupL allCodes, combined⟩ }
      else
        let exclusion :=
          ((takeLast cfg.exclusion_check_turns st.conversation_history).find?
            (fun t => t.role = "user"
              && exclusionKeywords.any (fun kw => strIn kw (pyLower t.content)))).map
            (fun t => t.content)
        match mapper description exclusion with
        | .error e => { st with sql_error := some e, sql_valid := some false }
        | .ok m =>
          if m.codes.isEmpty then
            { st with
                sql_error := some ("No SIC codes found for industry: " ++ description)
                sql_valid := some false }
          else
            let rat :=
              match m.rationale with
              | some r => if r = "" then defaultRationale else r
              | none => defaultRationale
            { st with sic_context := some ⟨description, m.codes, rat⟩ }

/-- The unchanged-title check of `map_title_node` (lines 183-194): the
last earlier extraction with a truthy title matches the current title
case-insensitively, and a truthy condition is already stored. -/
def titleUnchangedB (st : WorkflowState) (t : String) : Bool :=
  st.sql_query.isSome && "title" ∈ st.mentioned_fields
    && !st.extraction_history.isEmpty
    && (match (st.extraction_history.dropLast.filter
          (fun e => truthy e.extracted.title)).getLast? with
        | some e =>
          match e.extracted.title with
          | some pt => pt ≠ "" && pyLower pt = pyLower t && truthy st.title_sql_condition
          | none => false
        | none => false)

/-- The tier conditions collected for a comma-separated title (truthy
results of the tier mapper on each stripped sub-title). -/
def titleConds (tcfg : TitleTierCfg) (t : String) : List String :=
  ((t.splitOn ",").map pyStrip).filterMap (fun x =>
    match generate_title_sql_condition tcfg x with
    | some c => if c = "" then none else some c
    | none => none)

/-- The condition `map_title_node` would store for the title text `t`, or
`none` when the node leaves the stored condition alone. -/
def combineTitleConds (tcfg : TitleTierCfg) (t : String) : Option String :=
  if strIn "," t then
    if (titleConds tcfg t).isEmpty then none
    else
      some (match dedupL (titleConds tcfg t) with
        | [u] => u
        | uniq => "(" ++ String.intercalate " OR " uniq ++ ")")
  else
    match generate_title_sql_condition tcfg t with
    | some c => if c = "" then none else some c
    | none => none

/-- `map_title_node`. -/
def map_title_node (tcfg : TitleTierCfg) (st : WorkflowState) : WorkflowState :=
  if st.sql_query.isSome && "title" ∉ st.mentioned_fields
      && truthy st.title_sql_condition then st
  else if !truthy st.extracted_info.title || is_empty_value st.extracted_info.title then st
  else if titleUnchangedB st (st.extracted_info.title.getD "") then st
  else
    match combineTitleConds tcfg (st.extracted_info.title.getD "") with
    | some cond => { st with title_sql_condition := some cond }
    | none => st

/-- `handle_update_node` (src/workflows/nodes/update.py): clear the old
SQL so it is regenerated. -/
def handle_update_node (st : WorkflowState) : WorkflowState :=
  { st with sql_query := none, sql_valid := none, sql_error := none }

/-- `route_after_extraction` (src/workflows/edges.py): an update turn is
one whose state still carries a truthy SQL query. -/
def route_after_extraction (st : WorkflowState) : String :=
  if truthy st.sql_query then "update" else "validate"

/-- The update flow of the compiled graph
(`handle_update → map_industry → map_title`, text_to_sql_graph.py
lines 85 and 101; the subsequent `generate_sql` / `validate_sql` nodes
never write `sic_context` or `title_sql_condition`). -/
def updateFlow (cfg : Config) (tcfg : TitleTierCfg)
    (mapper : String → Option String → Except String SicMapping)
    (st : WorkflowState) : WorkflowState :=
  map_title_node tcfg (map_industry_node cfg mapper (handle_update_node st))

/-! ## Claim C1: the `UNION SELECT` screen -/

/-- A state of the world used to exercise claim C2: the stored SIC context
was produced by the mapper without exclusion context, and the update turn
introduces the exclusion keyword `remove`, so the (deterministic, cached)
mapper is consulted under a different key. -/
def c2Mapper : String → Option String → Except String SicMapping :=
  fun _ excl =>
    match excl with
    | some _ => .ok ⟨["2051"], some "buyers except small companies"⟩
    | none => .ok ⟨["7349"], some "building cleaning buyers"⟩

/-- The update-turn state for claim C2: valid SQL exists, the new turn
mentions no field, industry text and SIC context are carried over from
earlier turns. -/
def c2State : WorkflowState :=
  { messages := [⟨"user", "remove small companies"⟩]
    conversation_history :=
      [ ⟨"user", "I sell cleaning services in Texas", none, none⟩
      , ⟨"user", "remove small companies", none, none⟩ ]
    extracted_info := { geography := some "Texas", industry := some "cleaning" }
    sql_query := some "SELECT * FROM icp_data"
    sql_valid := some true
    sic_context := some ⟨"cleaning", ["7349"], "building cleaning buyers"⟩
    title_sql_condition := none
    mentioned_fields := [] }

end TextToSql

open TextToSql

/-- C1: the safety validator is claimed to fail any statement holding
`UNION SELECT` without a `SELECT` on each side of `UNION`.  The
`INJECTION_PATTERNS` list carries no `UNION SELECT` entry, so the special
handling in `check_injection_patterns` is dead code and the statement
`UNION SELECT 1` (no `SELECT` before `UNION`) passes the check unflagged. -/
theorem C1_union_select_check_is_dead :
    check_injection_patterns "UNION SELECT 1".data = (true, [])
      ∧ "UNION SELECT".data ∉ INJECTION_PATTERNS := by
  constructor
  · decide
  · decide

/-- C2: on an update turn with valid SQL and `industry` unmentioned, the
compiled update flow (`handle_update → map_industry → map_title`) clears
`sql_query` first, so `map_industry_node` no longer sees an update
request, skips its preservation branch, and re-maps the preserved
industry text — overwriting the previously held `SicContext`. -/
theorem C2_update_flow_overwrites_sic_context :
    c2State.sql_query.isSome = true
      ∧ "industry" ∉ c2State.mentioned_fields
      ∧ c2State.sic_context = some ⟨"cleaning", ["7349"], "building cleaning buyers"⟩
      ∧ (updateFlow {} ⟨[], [], []⟩ c2Mapper c2State).sic_context
          = some ⟨"cleaning", ["2051"], "buyers except small companies"⟩ := by
  refine ⟨rfl, by decide, rfl, ?_⟩
  decide

/-- C10: with no messages, or an empty latest message, `extract_info_node`
returns its state unchanged whatever the capability would answer. -/
theorem C10_extraction_skips_empty_input (cfg : Config) (st : WorkflowState)
    (h : st.messages = [] ∨ (st.messages.getLast?).map Message.content = some "") :
    ∀ llmResult, extract_info_node cfg llmResult st = st := by
  intro llmResult
  rcases h with h | h
  · simp [extract_info_node, h]
  · rcases Option.map_eq_some'.mp h with ⟨m, hm, hc⟩
    simp [extract_info_node, hm, hc]

/-- C10 witness: a concrete state whose latest message is empty. -/
theorem C10_witness :
    (({ messages := [⟨"user", ""⟩] } : WorkflowState).messages = []
        ∨ (({ messages := [⟨"user", ""⟩] } : WorkflowState).messages.getLast?).map
            Message.content = some "")
      ∧ extract_info_node {} (some {}) { messages := [⟨"user", ""⟩] }
          = { messages := [⟨"user", ""⟩] } :=
  ⟨Or.inr (by decide), C10_extraction_skips_empty_input {} _ (Or.inr (by decide)) _⟩



/-! ## Claim C4: update turns preserve unmentioned fields -/

theorem mem_ite_singleton {b : Bool} {x y : String} :
    (x ∈ if b then [y] else ([] : List String)) ↔ (b = true ∧ x = y) := by
  cases b <;> simp

theorem mem_mentionedOf_geography (e : ExtractedInfoWithMentioned) :
    ("geography" ∈ mentionedOf e) ↔ e.geography_mentioned = true := by
  simp [mentionedOf, mem_ite_singleton]

theorem mem_mentionedOf_industry (e : ExtractedInfoWithMentioned) :
    ("industry" ∈ mentionedOf e) ↔ e.industry_mentioned = true := by
  simp [mentionedOf, mem_ite_singleton]

theorem mem_mentionedOf_title (e : ExtractedInfoWithMentioned) :
    ("title" ∈ mentionedOf e) ↔ e.title_mentioned = true := by
  simp [mentionedOf, mem_ite_singleton]

theorem mem_mentionedOf_employee_size (e : ExtractedInfoWithMentioned) :
    ("employee_size" ∈ mentionedOf e) ↔ e.employee_size_mentioned = true := by
  simp [mentionedOf, mem_ite_singleton]

theorem mem_mentionedOf_square_footage (e : ExtractedInfoWithMentioned) :
    ("square_footage" ∈ mentionedOf e) ↔ e.square_footage_mentioned = true := by
  simp [mentionedOf, mem_ite_singleton]

theorem mem_mentionedOf_sales_volume (e : ExtractedInfoWithMentioned) :
    ("sales_volume" ∈ mentionedOf e) ↔ e.sales_volume_mentioned = true := by
  simp [mentionedOf, mem_ite_singleton]

theorem mem_mentionedOf_target_customer_type (e : ExtractedInfoWithMentioned) :
    ("target_customer_type" ∈ mentionedOf e) ↔ e.target_customer_type_mentioned = true := by
  simp [mentionedOf, mem_ite_singleton]

theorem updApply_not_mentioned (newV old : Option String) :
    updApply false newV old = old := rfl

/-- C4: on an update turn (SQL exists, messages non-empty with non-empty
latest content), every semantic field whose mentioned flag is false keeps
exactly its prior value in `ExtractedInfo`, whatever value the extraction
result proposes for it. -/
theorem C4_update_preserves_unmentioned_fields (cfg : Config) (st : WorkflowState)
    (ext : ExtractedInfoWithMentioned) (m : Message)
    (hupd : st.sql_query.isSome = true)
    (hmsg : st.messages.getLast? = some m)
    (hcontent : m.content ≠ "") :
    (ext.geography_mentioned = false →
      (extract_info_node cfg (some ext) st).extracted_info.geography
        = st.extracted_info.geography)
    ∧ (ext.industry_mentioned = false →
      (extract_info_node cfg (some ext) st).extracted_info.industry
        = st.extracted_info.industry)
    ∧ (ext.target_customer_type_mentioned = false →
      (extract_info_node cfg (some ext) st).extracted_info.target_customer_type
        = st.extracted_info.target_customer_type)
    ∧ (ext.title_mentioned = false →
      (extract_info_node cfg (some ext) st).extracted_info.title
        = st.extracted_info.title)
    ∧ (ext.employee_size_mentioned = false →
      (extract_info_node cfg (some ext) st).extracted_info.employee_size
        = st.extracted_info.employee_size)
    ∧ (ext.square_footage_mentioned = false →
      (extract_info_node cfg (some ext) st).extracted_info.square_footage
        = st.extracted_info.square_footage)
    ∧ (ext.sales_volume_mentioned = false →
      (extract_info_node cfg (some ext) st).extracted_info.sales_volume
        = st.extracted_info.sales_volume) := by
  have hnode : (extract_info_node cfg (some ext) st).extracted_info =
      { geography := updApply ("geography" ∈ mentionedOf ext)
          (toExtractedInfo ext).geography st.extracted_info.geography
        industry := updApply ("industry" ∈ mentionedOf ext)
          (toExtractedInfo ext).industry st.extracted_info.industry
        target_customer_type := updApply ("target_customer_type" ∈ mentionedOf ext)
          (toExtractedInfo ext).target_customer_type st.extracted_info.target_customer_type
        title := updApply ("title" ∈ mentionedOf ext)
          (toExtractedInfo ext).title st.extracted_info.title
        employee_size := updApply ("employee_size" ∈ mentionedOf ext)
          (toExtractedInfo ext).employee_size st.extracted_info.employee_size
        square_footage := updApply ("square_footage" ∈ mentionedOf ext)
          (toExtractedInfo ext).square_footage st.extracted_info.square_footage
        sales_volume := updApply ("sales_volume" ∈ mentionedOf ext)
          (toExtractedInfo ext).sales_volume st.extracted_info.sales_volume } := by
    simp [extract_info_node, hmsg, hcontent, hupd]
  refine ⟨?_, ?_, ?_, ?_, ?_, ?_, ?_⟩ <;> intro hflag <;> rw [hnode]
  · have : ("geography" ∈ mentionedOf ext) = False := by
      simp [mem_mentionedOf_geography, hflag]
    simp [this, updApply]
  · have : ("industry" ∈ mentionedOf ext) = False := by
      simp [mem_mentionedOf_industry, hflag]
    simp [this, updApply]
  · have : ("target_customer_type" ∈ mentionedOf ext) = False := by
      simp [mem_mentionedOf_target_customer_type, hflag]
    simp [this, updApply]
  · have : ("title" ∈ mentionedOf ext) = False := by
      simp [mem_mentionedOf_title, hflag]
    simp [this, updApply]
  · have : ("employee_size" ∈ mentionedOf ext) = False := by
      simp [mem_mentionedOf_employee_size, hflag]
    simp [this, updApply]
  · have : ("square_footage" ∈ mentionedOf ext) = False := by
      simp [mem_mentionedOf_square_footage, hflag]
    simp [this, updApply]
  · have : ("sales_volume" ∈ mentionedOf ext) = False := by
      simp [mem_mentionedOf_sales_volume, hflag]
    simp [this, updApply]

/-! ## Claim C7: inconsistent clarification decisions are downgraded -/

/-- C7: when the clarification capability answers `needsClarification =
true` but with no question, an empty question, or one shorter than the
configured minimum (or the structured output is rejected outright,
`resp = none`), the node behaves exactly as if no clarification were
needed: same resulting state as for a `needs_clarification = false`
decision; the suspend flag is false, no pending question is set, and the
conversation history gains no assistant turn. -/
theorem C7_short_question_means_no_clarification (cfg : Config) (st : WorkflowState)
    (resp : Option QuestionResponse)
    (h : resp = none
      ∨ ∃ r, resp = some r ∧ r.needs_clarification = true
          ∧ (truthy r.question = false
            ∨ (pyStrip (r.question.getD "")).length < cfg.min_question_length)) :
    request_clarification_node cfg resp st
        = request_clarification_node cfg (some ⟨false, none⟩) st
      ∧ (request_clarification_node cfg resp st).needs_human_input = false
      ∧ (request_clarification_node cfg resp st).current_question = none
      ∧ (request_clarification_node cfg resp st).conversation_history
          = st.conversation_history := by
  have hbase : request_clarification_node cfg (some ⟨false, none⟩) st = noClarify st := by
    unfold request_clarification_node
    by_cases hg : (st.missing_fields.isEmpty && !shouldAskContextual cfg st) = true
    · rw [if_pos hg]
    · rw [if_neg hg]
      rfl
  have hres : request_clarification_node cfg resp st = noClarify st := by
    rcases h with h | ⟨r, hr, hneeds, hbad⟩
    · subst h
      unfold request_clarification_node
      by_cases hg : (st.missing_fields.isEmpty && !shouldAskContextual cfg st) = true
      · rw [if_pos hg]
      · rw [if_neg hg]
    · subst hr
      have haq : acceptedQuestion cfg r = none := by
        unfold acceptedQuestion
        rcases hbad with hbad | hbad
        · simp [hbad]
        · simp [hbad]
      unfold request_clarification_node
      by_cases hg : (st.missing_fields.isEmpty && !shouldAskContextual cfg st) = true
      · rw [if_pos hg]
      · rw [if_neg hg]
        simp [hneeds, haq]
  rw [hres, hbase]
  exact ⟨rfl, rfl, rfl, rfl⟩

/-- C7 witness: a decision with `needsClarification = true` and the
too-short question `"?"` under the default ten-character minimum. -/
theorem C7_witness :
    request_clarification_node {} (some ⟨true, some "?"⟩)
        { missing_fields := ["geography"] }
      = request_clarification_node {} (some ⟨false, none⟩)
        { missing_fields := ["geography"] } :=
  (C7_short_question_means_no_clarification {} { missing_fields := ["geography"] }
    (some ⟨true, some "?"⟩)
    (Or.inr ⟨⟨true, some "?"⟩, rfl, rfl, Or.inr (by decide)⟩)).1

/-! ## Claim C5: the missing-fields rules -/

theorem mem_missingGate {x name : String} {mf : List String} {v : Option String} :
    x ∈ missingGate name mf v
      ↔ (¬(name ∈ mf ∧ v = none) ∧ is_empty_value v = true ∧ x = name) := by
  unfold missingGate
  split
  · next h =>
    simp only [Bool.and_eq_true, decide_eq_true_eq] at h
    simp [h]
  · next h =>
    simp only [Bool.and_eq_true, decide_eq_true_eq] at h
    split
    · next he => simp [he, h, List.mem_singleton, eq_comm]
    · next he => simp [he, h]

theorem requiredMissingOf_names {x : String} {st : WorkflowState}
    (h : x ∈ requiredMissingOf st) : x = "geography" ∨ x = "industry" := by
  unfold requiredMissingOf at h
  rcases List.mem_append.mp h with h | h
  · exact Or.inl (mem_missingGate.mp h).2.2
  · exact Or.inr (mem_missingGate.mp h).2.2

theorem recommendedMissingOf_names {x : String} {st : WorkflowState}
    (h : x ∈ recommendedMissingOf st) : x = "title" ∨ x = "employee_size" := by
  unfold recommendedMissingOf at h
  split at h
  · simp at h
  · rcases List.mem_append.mp h with h | h
    · exact Or.inl (mem_missingGate.mp h).2.2
    · exact Or.inr (mem_missingGate.mp h).2.2

theorem conditionalMissingOf_names {x : String} {st : WorkflowState}
    (h : x ∈ conditionalMissingOf st) : x = "square_footage" := by
  unfold conditionalMissingOf at h
  split at h
  · simp at h
  · split at h
    · simp at h
    · split at h
      · split at h
        · simp at h
        · split at h
          · split at h <;> simp at h
            exact h
          · simp at h
      · simp at h

theorem recommendedMissingOf_update {st : WorkflowState}
    (h : st.sql_query.isSome = true) : recommendedMissingOf st = [] := by
  unfold recommendedMissingOf
  rw [if_pos h]

theorem conditionalMissingOf_update {st : WorkflowState}
    (h : st.sql_query.isSome = true) : conditionalMissingOf st = [] := by
  unfold conditionalMissingOf
  split
  · rfl
  · split
    · rfl
    · split
      · split
        · rfl
        · split
          · simp
          · simp [h]
      · rfl

theorem conditionalMissingOf_spec {st : WorkflowState}
    (h : "square_footage" ∈ conditionalMissingOf st) :
    st.sql_query.isSome = false
      ∧ ∃ t, st.extracted_info.industry = some t
          ∧ sqftKeywords.any (fun kw => strIn kw (pyLower t)) = true := by
  unfold conditionalMissingOf at h
  split at h
  · simp at h
  · next t heq =>
    split at h
    · simp at h
    · split at h
      · next hkw =>
        split at h
        · simp at h
        · split at h
          · split at h
            · simp at h
            · next hupd =>
              exact ⟨by simpa using hupd, t, heq, hkw⟩
          · simp at h
      · simp at h

theorem mem_full_missing {x : String} (st : WorkflowState) :
    (x ∈ (validate_completeness_node st).missing_fields)
      ↔ (x ∈ requiredMissingOf st ∨ x ∈ recommendedMissingOf st
          ∨ x ∈ conditionalMissingOf st) := by
  show x ∈ requiredMissingOf st ++ recommendedMissingOf st ++ conditionalMissingOf st ↔ _
  simp [List.mem_append, or_assoc]

theorem mem_req_geography (st : WorkflowState) :
    ("geography" ∈ requiredMissingOf st)
      ↔ (¬("geography" ∈ st.mentioned_fields ∧ st.extracted_info.geography = none)
          ∧ is_empty_value st.extracted_info.geography = true) := by
  unfold requiredMissingOf
  rw [List.mem_append]
  constructor
  · rintro (h | h)
    · exact ⟨(mem_missingGate.mp h).1, (mem_missingGate.mp h).2.1⟩
    · exact absurd (mem_missingGate.mp h).2.2 (by decide)
  · rintro ⟨h1, h2⟩
    exact Or.inl (mem_missingGate.mpr ⟨h1, h2, rfl⟩)

theorem mem_req_industry (st : WorkflowState) :
    ("industry" ∈ requiredMissingOf st)
      ↔ (¬("industry" ∈ st.mentioned_fields ∧ st.extracted_info.industry = none)
          ∧ is_empty_value st.extracted_info.industry = true) := by
  unfold requiredMissingOf
  rw [List.mem_append]
  constructor
  · rintro (h | h)
    · exact absurd (mem_missingGate.mp h).2.2 (by decide)
    · exact ⟨(mem_missingGate.mp h).1, (mem_missingGate.mp h).2.1⟩
  · rintro ⟨h1, h2⟩
    exact Or.inr (mem_missingGate.mpr ⟨h1, h2, rfl⟩)

theorem recommendedMissingOf_new {st : WorkflowState} (h : st.sql_query.isSome = false) :
    recommendedMissingOf st
      = missingGate "title" st.mentioned_fields st.extracted_info.title
        ++ missingGate "employee_size" st.mentioned_fields st.extracted_info.employee_size := by
  unfold recommendedMissingOf
  rw [if_neg (by simp [h])]

/-- C5: the completeness validator's rules.  Geography and industry are
reported missing iff empty and not explicitly cleared, on new and update
turns alike; title and employee_size follow the same rule on new turns
and are never reported on update turns; square_footage is reported only
on new turns whose industry text contains a square-footage keyword; and
the output lists required fields, then recommended, then conditional. -/
theorem C5_missing_fields_rules (st : WorkflowState) :
    (("geography" ∈ (validate_completeness_node st).missing_fields)
      ↔ (¬("geography" ∈ st.mentioned_fields ∧ st.extracted_info.geography = none)
          ∧ is_empty_value st.extracted_info.geography = true))
    ∧ (("industry" ∈ (validate_completeness_node st).missing_fields)
      ↔ (¬("industry" ∈ st.mentioned_fields ∧ st.extracted_info.industry = none)
          ∧ is_empty_value st.extracted_info.industry = true))
    ∧ (st.sql_query.isSome = true →
        "title" ∉ (validate_completeness_node st).missing_fields
        ∧ "employee_size" ∉ (validate_completeness_node st).missing_fields
        ∧ "square_footage" ∉ (validate_completeness_node st).missing_fields)
    ∧ (st.sql_query.isSome = false →
        (("title" ∈ (validate_completeness_node st).missing_fields)
          ↔ (¬("title" ∈ st.mentioned_fields ∧ st.extracted_info.title = none)
              ∧ is_empty_value st.extracted_info.title = true))
        ∧ (("employee_size" ∈ (validate_completeness_node st).missing_fields)
          ↔ (¬("employee_size" ∈ st.mentioned_fields ∧ st.extracted_info.employee_size = none)
              ∧ is_empty_value st.extracted_info.employee_size = true)))
    ∧ ("square_footage" ∈ (validate_completeness_node st).missing_fields →
        st.sql_query.isSome = false
        ∧ ∃ t, st.extracted_info.industry = some t
            ∧ sqftKeywords.any (fun kw => strIn kw (pyLower t)) = true)
    ∧ (∃ A B C, (validate_completeness_node st).missing_fields = A ++ B ++ C
        ∧ (∀ x ∈ A, x = "geography" ∨ x = "industry")
        ∧ (∀ x ∈ B, x = "title" ∨ x = "employee_size")
        ∧ (∀ x ∈ C, x = "square_footage")) := by
  refine ⟨?_, ?_, ?_, ?_, ?_, ?_⟩
  · rw [mem_full_missing]
    constructor
    · rintro (h | h | h)
      · exact (mem_req_geography st).mp h
      · rcases recommendedMissingOf_names h with h' | h' <;> exact absurd h' (by decide)
      · exact absurd (conditionalMissingOf_names h) (by decide)
    · intro h
      exact Or.inl ((mem_req_geography st).mpr h)
  · rw [mem_full_missing]
    constructor
    · rintro (h | h | h)
      · exact (mem_req_industry st).mp h
      · rcases recommendedMissingOf_names h with h' | h' <;> exact absurd h' (by decide)
      · exact absurd (conditionalMissingOf_names h) (by decide)
    · intro h
      exact Or.inl ((mem_req_industry st).mpr h)
  · intro hupd
    refine ⟨?_, ?_, ?_⟩ <;> rw [mem_full_missing] <;> rintro (h | h | h)
    · rcases requiredMissingOf_names h with h' | h' <;> exact absurd h' (by decide)
    · rw [recommendedMissingOf_update hupd] at h; simp at h
    · rw [conditionalMissingOf_update hupd] at h; simp at h
    · rcases requiredMissingOf_names h with h' | h' <;> exact absurd h' (by decide)
    · rw [recommendedMissingOf_update hupd] at h; simp at h
    · rw [conditionalMissingOf_update hupd] at h; simp at h
    · rcases requiredMissingOf_names h with h' | h' <;> exact absurd h' (by decide)
    · rw [recommendedMissingOf_update hupd] at h; simp at h
    · rw [conditionalMissingOf_update hupd] at h; simp at h
  · intro hnew
    constructor
    · rw [mem_full_missing]
      constructor
      · rintro (h | h | h)
        · rcases requiredMissingOf_names h with h' | h' <;> exact absurd h' (by decide)
        · rw [recommendedMissingOf_new hnew, List.mem_append] at h
          rcases h with h | h
          · exact ⟨(mem_missingGate.mp h).1, (mem_missingGate.mp h).2.1⟩
          · exact absurd (mem_missingGate.mp h).2.2 (by decide)
        · exact absurd (conditionalMissingOf_names h) (by decide)
      · rintro ⟨h1, h2⟩
        refine Or.inr (Or.inl ?_)
        rw [recommendedMissingOf_new hnew, List.mem_append]
        exact Or.inl (mem_missingGate.mpr ⟨h1, h2, rfl⟩)
    · rw [mem_full_missing]
      constructor
      · rintro (h | h | h)
        · rcases requiredMissingOf_names h with h' | h' <;> exact absurd h' (by decide)
        · rw [recommendedMissingOf_new hnew, List.mem_append] at h
          rcases h with h | h
          · exact absurd (mem_missingGate.mp h).2.2 (by decide)
          · exact ⟨(mem_missingGate.mp h).1, (mem_missingGate.mp h).2.1⟩
        · exact absurd (conditionalMissingOf_names h) (by decide)
      · rintro ⟨h1, h2⟩
        refine Or.inr (Or.inl ?_)
        rw [recommendedMissingOf_new hnew, List.mem_append]
        exact Or.inr (mem_missingGate.mpr ⟨h1, h2, rfl⟩)
  · rw [mem_full_missing]
    rintro (h | h | h)
    · rcases requiredMissingOf_names h with h' | h' <;> exact absurd h' (by decide)
    · rcases recommendedMissingOf_names h with h' | h' <;> exact absurd h' (by decide)
    · exact conditionalMissingOf_spec h
  · exact ⟨requiredMissingOf st, recommendedMissingOf st, conditionalMissingOf st, rfl,
      fun x hx => requiredMissingOf_names hx,
      fun x hx => recommendedMissingOf_names hx,
      fun x hx => conditionalMissingOf_names hx⟩

/-- C5 witness: the validator applied to the Scenario-A state (cleaning in
Texas, both required fields mentioned), instantiating the rule theorem. -/
theorem C5_witness :
    ("geography" ∈ (validate_completeness_node
        { extracted_info :=
            { geography := some "Texas", industry := some "commercial cleaning services" }
          mentioned_fields := ["geography", "industry"] }).missing_fields
      ↔ (¬("geography" ∈ ["geography", "industry"] ∧ (some "Texas" : Option String) = none)
          ∧ is_empty_value (some "Texas") = true)) :=
  (C5_missing_fields_rules
    { extracted_info :=
        { geography := some "Texas", industry := some "commercial cleaning services" }
      mentioned_fields := ["geography", "industry"] }).1


/-! ## Claim C6: matching a user turn to an unanswered question -/

theorem trackCorrectionsStage_answers (ctx : ConversationContext) (turn : ConversationTurn)
    (extracted : ExtractedInfo) (prev : Option ExtractedInfo) :
    (trackCorrectionsStage ctx turn extracted prev).answers_received
      = ctx.answers_received := by
  unfold trackCorrectionsStage
  split
  · split
    · dsimp only
      split <;> rfl
    · rfl
  · rfl

theorem trackUpdateReqStage_answers (ctx : ConversationContext) (turn : ConversationTurn) :
    (trackUpdateReqStage ctx turn).answers_received = ctx.answers_received := by
  unfold trackUpdateReqStage
  split <;> rfl

theorem trackQuestionStage_user (ctx : ConversationContext) (turn : ConversationTurn)
    (hrole : turn.role = "user") : trackQuestionStage ctx turn = ctx := by
  unfold trackQuestionStage
  rw [hrole]
  simp

theorem lookupAns_append_self {q v : String} {ans : List (String × String)}
    (h : lookupAns q ans = none) : lookupAns q (ans ++ [(q, v)]) = some v := by
  have hf : ans.find? (fun p => p.1 = q) = none := by
    unfold lookupAns at h
    exact Option.map_eq_none'.mp h
  unfold lookupAns
  rw [List.find?_append, hf]
  simp

theorem lookupAns_append_other {q k v : String} {ans : List (String × String)}
    (h : q ≠ k) : lookupAns q (ans ++ [(k, v)]) = lookupAns q ans := by
  unfold lookupAns
  rw [List.find?_append]
  have hs : [(k, v)].find? (fun p => p.1 = q) = none := by
    simp [Ne.symm h]
  rw [hs]
  rcases hf : ans.find? (fun p => p.1 = q) with _ | p <;> simp

/-- C6 amended: on a user turn with at least one previously asked question
unanswered, conversation memory records the turn's content as the answer
to the **most recently asked** unanswered question (the source walks
`reversed(questions_asked)` and breaks at the first hit), leaving every
other question's recorded answer unchanged. -/
theorem C6_answer_goes_to_newest_unanswered (ctx : ConversationContext)
    (turn : ConversationTurn) (extracted : ExtractedInfo) (prev : Option ExtractedInfo)
    (hrole : turn.role = "user")
    (hunans : ∃ q ∈ ctx.questions_asked, lookupAns q ctx.answers_received = none) :
    ∃ qstar pre post,
      ctx.questions_asked = pre ++ qstar :: post
      ∧ lookupAns qstar ctx.answers_received = none
      ∧ (∀ q ∈ post, lookupAns q ctx.answers_received ≠ none)
      ∧ lookupAns qstar
          (update_conversation_context ctx turn extracted prev).answers_received
          = some turn.content
      ∧ (∀ q, q ≠ qstar →
          lookupAns q (update_conversation_context ctx turn extracted prev).answers_received
            = lookupAns q ctx.answers_received) := by
  obtain ⟨q0, hq0mem, hq0⟩ := hunans
  have hne : ctx.questions_asked ≠ [] := by
    intro h
    rw [h] at hq0mem
    simp at hq0mem
  have hsome : (ctx.questions_asked.reverse.find?
      (fun q => (lookupAns q ctx.answers_received).isNone)).isSome := by
    rw [List.find?_isSome]
    exact ⟨q0, List.mem_reverse.mpr hq0mem, by simp [hq0]⟩
  obtain ⟨qstar, hfind⟩ := Option.isSome_iff_exists.mp hsome
  obtain ⟨hpq, r1, r2, hrev, hr1⟩ := List.find?_eq_some.mp hfind
  have hqs : ctx.questions_asked = r2.reverse ++ qstar :: r1.reverse := by
    have := congrArg List.reverse hrev
    simpa using this
  have hqstar_unans : lookupAns qstar ctx.answers_received = none := by
    simpa [Option.isNone_iff_eq_none] using hpq
  have hempty : ctx.questions_asked.isEmpty = false := by
    rcases hq : ctx.questions_asked with _ | ⟨a, l⟩
    · exact absurd hq hne
    · simp
  have hstage : (update_conversation_context ctx turn extracted prev).answers_received
      = ctx.answers_received ++ [(qstar, turn.content)] := by
    unfold update_conversation_context
    rw [trackUpdateReqStage_answers, trackCorrectionsStage_answers,
      trackQuestionStage_user ctx turn hrole]
    unfold trackAnswerStage
    rw [hrole, hempty]
    simp only [Bool.not_false, Bool.and_true]
    rw [if_pos (by simp)]
    rw [hfind]
  refine ⟨qstar, r2.reverse, r1.reverse, hqs, hqstar_unans, ?_, ?_, ?_⟩
  · intro q hq heq
    have hmem : q ∈ r1 := List.mem_reverse.mp hq
    have h1 := hr1 q hmem
    rw [heq] at h1
    simp at h1
  · rw [hstage]
    exact lookupAns_append_self hqstar_unans
  · intro q hq
    rw [hstage]
    exact lookupAns_append_other hq

/-- C6 counterexample: questions `["q1", "q2"]` were asked and neither is
answered; the oldest unanswered question is `q1`, but the user turn's
content is recorded as the answer to `q2`, and `q1` stays unanswered —
against the claim, which requires it to be recorded for `q1` alone. -/
theorem C6_counterexample :
    lookupAns "q1" (update_conversation_context
        { questions_asked := ["q1", "q2"] } ⟨"user", "fifty", none, none⟩ {} none
      ).answers_received = none
    ∧ lookupAns "q2" (update_conversation_context
        { questions_asked := ["q1", "q2"] } ⟨"user", "fifty", none, none⟩ {} none
      ).answers_received = some "fifty" := by
  constructor
  · rfl
  · rfl

/-- C6 witness: the amended theorem applied at the counterexample state. -/
theorem C6_witness :
    ∃ qstar pre post,
      (({ questions_asked := ["q1", "q2"] } : ConversationContext)).questions_asked
          = pre ++ qstar :: post
      ∧ lookupAns qstar (({ questions_asked := ["q1", "q2"] } :
          ConversationContext)).answers_received = none
      ∧ (∀ q ∈ post, lookupAns q (({ questions_asked := ["q1", "q2"] } :
          ConversationContext)).answers_received ≠ none)
      ∧ lookupAns qstar
          (update_conversation_context { questions_asked := ["q1", "q2"] }
            ⟨"user", "fifty", none, none⟩ {} none).answers_received
          = some (⟨"user", "fifty", none, none⟩ : ConversationTurn).content
      ∧ (∀ q, q ≠ qstar →
          lookupAns q (update_conversation_context { questions_asked := ["q1", "q2"] }
            ⟨"user", "fifty", none, none⟩ {} none).answers_received
            = lookupAns q (({ questions_asked := ["q1", "q2"] } :
                ConversationContext)).answers_received) :=
  C6_answer_goes_to_newest_unanswered { questions_asked := ["q1", "q2"] }
    ⟨"user", "fifty", none, none⟩ {} none rfl ⟨"q1", by simp, rfl⟩

/-- C4 witness: an update turn whose extraction result leaves `industry`
unmentioned while proposing the value `plumbing`; the prior value
`cleaning` is kept. -/
theorem C4_witness :
    (extract_info_node {}
        (some { geography := some "Ohio", industry := some "plumbing"
                geography_mentioned := true })
        { messages := [⟨"user", "also include Arizona"⟩]
          sql_query := some "SELECT 1"
          extracted_info := { geography := some "Texas", industry := some "cleaning" } }
      ).extracted_info.industry = some "cleaning" :=
  (C4_update_preserves_unmentioned_fields {}
      { messages := [⟨"user", "also include Arizona"⟩]
        sql_query := some "SELECT 1"
        extracted_info := { geography := some "Texas", industry := some "cleaning" } }
      { geography := some "Ohio", industry := some "plumbing", geography_mentioned := true }
      ⟨"user", "also include Arizona"⟩ rfl (by decide) (by decide)).2.1 rfl


/-! ## Claim C9: shape of generated title conditions -/

theorem match_title_to_tier_mem {cfg : TitleTierCfg} {kw t : String}
    (h : match_title_to_tier cfg kw = some t) :
    t ∈ (["tier_i", "tier_ii", "tier_iii"] : List String) := by
  unfold match_title_to_tier at h
  split at h
  · exact absurd h (by simp)
  · split at h
    · simp_all
    · split at h
      · simp_all
      · split at h
        · simp_all
        · exact absurd h (by simp)

theorem generate_title_shape (cfg : TitleTierCfg) (kw : String) :
    generate_title_sql_condition cfg kw = none
      ∨ ∃ s, generate_title_sql_condition cfg kw = some s ∧ isTierAtom s := by
  unfold generate_title_sql_condition
  split
  · exact Or.inl rfl
  · rcases hm : match_title_to_tier cfg kw with _ | t
    · exact Or.inl rfl
    · exact Or.inr ⟨_, rfl, t, match_title_to_tier_mem hm, rfl⟩

theorem mem_dedupGo {x : String} :
    ∀ (seen l : List String), x ∈ dedupGo seen l → x ∈ l := by
  intro seen l
  induction l generalizing seen with
  | nil => simp [dedupGo]
  | cons a as ih =>
    intro h
    unfold dedupGo at h
    split at h
    · exact List.mem_cons_of_mem a (ih _ h)
    · rcases List.mem_cons.mp h with h | h
      · exact h ▸ List.mem_cons_self a as
      · exact List.mem_cons_of_mem a (ih _ h)

theorem dedupGo_nodup :
    ∀ (seen l : List String), (dedupGo seen l).Nodup
      ∧ ∀ x ∈ dedupGo seen l, x ∉ seen := by
  intro seen l
  induction l generalizing seen with
  | nil => exact ⟨List.nodup_nil, by simp [dedupGo]⟩
  | cons a as ih =>
    unfold dedupGo
    split
    · exact ih seen
    · next ha =>
      obtain ⟨hnd, hout⟩ := ih (a :: seen)
      constructor
      · refine List.nodup_cons.mpr ⟨?_, hnd⟩
        intro hmem
        exact (hout a hmem) (List.mem_cons_self a seen)
      · intro x hx
        rcases List.mem_cons.mp hx with rfl | hx
        · exact ha
        · intro hxs
          exact (hout x hx) (List.mem_cons_of_mem a hxs)

theorem dedupL_nodup (l : List String) : (dedupL l).Nodup := (dedupGo_nodup [] l).1

theorem mem_dedupL {x : String} {l : List String} (h : x ∈ dedupL l) : x ∈ l :=
  mem_dedupGo [] l h

theorem dedupL_cons_ne_nil (a : String) (l : List String) : dedupL (a :: l) ≠ [] := by
  unfold dedupL dedupGo
  simp

/-- Every condition collected for a comma-separated title is a tier atom. -/
theorem titleConds_atoms {tcfg : TitleTierCfg} {t x : String}
    (h : x ∈ titleConds tcfg t) : isTierAtom x := by
  obtain ⟨y, _, hy⟩ := List.mem_filterMap.mp h
  rcases hgen : generate_title_sql_condition tcfg y with _ | s
  · rw [hgen] at hy
    simp at hy
  · rw [hgen] at hy
    dsimp only at hy
    split at hy
    · simp at hy
    · have hsx : s = x := by injection hy
      subst hsx
      rcases generate_title_shape tcfg y with h' | ⟨s', h's, hatom⟩
      · rw [hgen] at h'
        simp at h'
      · rw [hgen] at h's
        have : s' = s := by injection h's.symm
        exact this ▸ hatom

theorem combineTitleConds_good {tcfg : TitleTierCfg} {t s : String}
    (h : combineTitleConds tcfg t = some s) : goodTitleCond s := by
  unfold combineTitleConds at h
  split at h
  · split at h
    · simp at h
    · next hne =>
      rcases huniq : dedupL (titleConds tcfg t) with _ | ⟨u, rest⟩
      · rcases hcs : titleConds tcfg t with _ | ⟨c0, cs⟩
        · rw [hcs] at hne
          simp at hne
        · rw [hcs] at huniq
          exact absurd huniq (dedupL_cons_ne_nil c0 cs)
      · rcases rest with _ | ⟨u2, rest2⟩
        · rw [huniq] at h
          have : u = s := by injection h
          subst this
          exact Or.inl (titleConds_atoms (mem_dedupL (huniq ▸ List.mem_cons_self u [])))
        · rw [huniq] at h
          have hps : "(" ++ String.intercalate " OR " (u :: u2 :: rest2) ++ ")" = s := by
            injection h
          refine Or.inr ⟨u :: u2 :: rest2, by simp, ?_, ?_, hps.symm⟩
          · exact huniq ▸ dedupL_nodup (titleConds tcfg t)
          · intro x hx
            exact titleConds_atoms (mem_dedupL (huniq ▸ hx))
  · rcases hgen : generate_title_sql_condition tcfg t with _ | c
    · rw [hgen] at h
      simp at h
    · rw [hgen] at h
      dsimp only at h
      split at h
      · simp at h
      · have hcs : c = s := by injection h
        subst hcs
        rcases generate_title_shape tcfg t with h' | ⟨s', h's, hatom⟩
        · rw [hgen] at h'
          simp at h'
        · rw [hgen] at h's
          have : s' = c := by injection h's.symm
          exact Or.inl (this ▸ hatom)

/-- C9: the title tier mapper emits only closed tier atoms — `none`, or
exactly `title_tier = '<t>'` with `t` one of the three tier names — and
`map_title_node` stores either the unchanged prior condition or a single
tier atom or a parenthesized `OR` of at least two distinct tier atoms, so
no user-supplied text ever reaches the stored condition. -/
theorem C9_title_condition_shape (tcfg : TitleTierCfg) :
    (∀ title, generate_title_sql_condition tcfg title = none
      ∨ ∃ s, generate_title_sql_condition tcfg title = some s ∧ isTierAtom s)
    ∧ (∀ st : WorkflowState,
        (map_title_node tcfg st).title_sql_condition = st.title_sql_condition
        ∨ ∃ s, (map_title_node tcfg st).title_sql_condition = some s
            ∧ goodTitleCond s) := by
  refine ⟨generate_title_shape tcfg, ?_⟩
  intro st
  unfold map_title_node
  split
  · exact Or.inl rfl
  · split
    · exact Or.inl rfl
    · split
      · exact Or.inl rfl
      · rcases hc : combineTitleConds tcfg (st.extracted_info.title.getD "") with _ | cond
        · exact Or.inl rfl
        · exact Or.inr ⟨cond, rfl, combineTitleConds_good hc⟩

/-! ## Claim C8: idempotence of comment stripping -/

theorem head?_take {α : Type} {k : Nat} (l : List α) (hk : 0 < k) :
    (l.take k).head? = l.head? := by
  rcases l with _ | ⟨a, r⟩
  · simp
  · rcases k with _ | k'
    · exact absurd hk (by simp)
    · simp

/-- The line scanner finds no comment start in a strict prefix of its
input cut at or before the first reported comment position. -/
theorem scanCmt_take_none :
    ∀ (l : List Char) (prev : Option Char) (inStr : Bool) (qc : Option Char)
      (i k : Nat), scanCmt l prev inStr qc = some i → k ≤ i →
      scanCmt (l.take k) prev inStr qc = none := by
  intro l
  induction l with
  | nil => intro prev inStr qc i k h _; exact absurd h (by simp [scanCmt])
  | cons c r ih =>
    intro prev inStr qc i k h hk
    rcases k with _ | k'
    · simp [scanCmt]
    · rw [List.take_succ_cons]
      rw [scanCmt] at h ⊢
      split at h
      · next hc1 =>
        rw [if_pos hc1]
        obtain ⟨j, hj, hji⟩ := Option.map_eq_some'.mp h
        have : k' ≤ j := by omega
        rw [ih _ _ _ j k' hj this]
        rfl
      · next hc2 =>
        rw [if_neg hc2]
        split at h
        · next hc3 =>
          have : i = 0 := by
            have := Option.some.inj h
            omega
          omega
        · next hc3 =>
          have hc3' : ¬(!inStr && c = '-' && (List.take k' r).head? = some '-') = true := by
            intro hcontra
            apply hc3
            simp only [Bool.and_eq_true] at hcontra ⊢
            refine ⟨⟨hcontra.1.1, hcontra.1.2⟩, ?_⟩
            rcases k' with _ | k''
            · simp at hcontra
            · rw [head?_take r (by omega)] at hcontra
              exact hcontra.2
          rw [if_neg hc3']
          obtain ⟨j, hj, hji⟩ := Option.map_eq_some'.mp h
          have : k' ≤ j := by omega
          rw [ih _ _ _ j k' hj this]
          rfl

/-- Right-stripping whitespace yields a prefix of the input. -/
theorem rstripWs_eq_take (l : List Char) : ∃ k, rstripWs l = l.take k := by
  have hsplit : l = rstripWs l ++ (l.reverse.takeWhile isWS).reverse := by
    unfold rstripWs
    have := (List.takeWhile_append_dropWhile (p := isWS) (l := l.reverse)).symm
    calc l = l.reverse.reverse := by rw [List.reverse_reverse]
    _ = (l.reverse.takeWhile isWS ++ l.reverse.dropWhile isWS).reverse := by
        rw [List.takeWhile_append_dropWhile]
    _ = (l.reverse.dropWhile isWS).reverse ++ (l.reverse.takeWhile isWS).reverse := by
        rw [List.reverse_append]
  refine ⟨(rstripWs l).length, ?_⟩
  conv_lhs => rw [show rstripWs l = (rstripWs l ++ (l.reverse.takeWhile isWS).reverse).take
    (rstripWs l).length from (List.take_left _ _).symm]
  rw [← hsplit]

/-- One pass of line-comment stripping is idempotent. -/
theorem lineStrip_idem (p : List Char) : lineStrip (lineStrip p) = lineStrip p := by
  rcases hscan : scanCmt p none false none with _ | i
  · have hid : lineStrip p = p := by
      unfold lineStrip
      rw [hscan]
    simp only [hid]
  · obtain ⟨k, hk⟩ := rstripWs_eq_take (p.take i)
    have hform : lineStrip p = p.take (min k i) := by
      unfold lineStrip
      rw [hscan]
      show rstripWs (p.take i) = p.take (min k i)
      rw [hk, List.take_take]
    rw [hform]
    unfold lineStrip
    rw [scanCmt_take_none p none false none i (min k i) hscan (by omega)]

theorem hasOpenB_cons {c : Char} {r : List Char} :
    hasOpenB (c :: r) = ((c = '/' && r.head? = some '*') || hasOpenB r) := rfl

/-- On opener-free text the block-comment automaton is the identity (both
from the normal state and from the pending-slash state when no `*`
follows). -/
theorem goB_id (l : List Char) (h : hasOpenB l = false) :
    goB .n l = l ∧ (l.head? ≠ some '*' → goB .nSlash l = '/' :: l) := by
  induction l with
  | nil => exact ⟨rfl, fun _ => rfl⟩
  | cons c r ih =>
    rw [hasOpenB_cons] at h
    simp only [Bool.or_eq_false_iff, Bool.and_eq_false_iff,
      decide_eq_false_iff_not] at h
    obtain ⟨h1, h2⟩ := h
    obtain ⟨ihn, ihs⟩ := ih h2
    have hhead : c = '/' → r.head? ≠ some '*' := by
      intro hc hh
      rcases h1 with h1 | h1
      · exact h1 hc
      · exact h1 hh
    constructor
    · show goB .n (c :: r) = c :: r
      rw [goB]
      by_cases hc : c = '/'
      · rw [if_pos hc, ihs (hhead hc), hc]
      · rw [if_neg hc, ihn]
    · intro hcstar
      have hcne : c ≠ '*' := by
        intro hc
        exact hcstar (by simp [hc])
      show goB .nSlash (c :: r) = '/' :: c :: r
      rw [goB]
      rw [if_neg (by simpa using hcne)]
      by_cases hc : c = '/'
      · rw [if_pos hc, ihs (hhead hc), hc]
      · rw [if_neg hc, ihn]

theorem blockRemove_id {l : List Char} (h : hasOpenB l = false) : blockRemove l = l :=
  (goB_id l h).1

theorem hasOpenB_append {a b : List Char} (h : hasOpenB (a ++ b) = true) :
    hasOpenB a = true ∨ (a.getLast? = some '/' ∧ b.head? = some '*')
      ∨ hasOpenB b = true := by
  induction a with
  | nil => exact Or.inr (Or.inr (by simpa using h))
  | cons x a2 ih =>
    rw [List.cons_append, hasOpenB_cons] at h
    rcases Bool.or_eq_true_iff.mp h with h | h
    · rcases ha2 : a2 with _ | ⟨z, a3⟩
      · subst ha2
        simp only [List.nil_append, Bool.and_eq_true, decide_eq_true_eq] at h
        exact Or.inr (Or.inl ⟨by simp [h.1], h.2⟩)
      · subst ha2
        refine Or.inl ?_
        rw [hasOpenB_cons]
        simp only [List.cons_append, List.head?_cons] at h
        simp only [Bool.and_eq_true, decide_eq_true_eq, Option.some.injEq] at h
        simp only [Bool.or_eq_true, Bool.and_eq_true, decide_eq_true_eq,
          List.head?_cons, Option.some.injEq]
        exact Or.inl h
    · rcases ih h with h' | h' | h'
      · exact Or.inl (by rw [hasOpenB_cons]; simp [h'])
      · refine Or.inr (Or.inl ⟨?_, h'.2⟩)
        rcases a2 with _ | ⟨z, a3⟩
        · simp at h'
        · rw [List.getLast?_cons_cons]
          exact h'.1
      · exact Or.inr (Or.inr h')

theorem hasOpenB_joinCh {ps : List (List Char)}
    (h : ∀ p ∈ ps, hasOpenB p = false) : hasOpenB (joinCh '\n' ps) = false := by
  induction ps with
  | nil => rfl
  | cons p ps ih =>
    rcases hps : ps with _ | ⟨p2, ps2⟩
    · subst hps
      exact h p (by simp)
    · rw [← hps]
      have hjoin : joinCh '\n' (p :: ps) = p ++ '\n' :: joinCh '\n' ps := by
        rw [hps]
        rfl
      rw [hjoin]
      by_contra hcontra
      rw [Bool.not_eq_false] at hcontra
      rcases hasOpenB_append hcontra with h' | h' | h'
      · exact absurd h' (by simp [h p (by simp)])
      · simp at h'
      · rw [hasOpenB_cons] at h'
        rcases Bool.or_eq_true_iff.mp h' with h'' | h''
        · simp at h''
        · have := ih (fun q hq => h q (List.mem_cons_of_mem p hq))
          exact absurd h'' (by simp [this])

theorem splitCh_ne_nil (sep : Char) (l : List Char) : splitCh sep l ≠ [] := by
  rcases l with _ | ⟨c, r⟩
  · simp [splitCh]
  · rw [splitCh]
    split
    · simp
    · split <;> simp

theorem splitCh_no_sep (sep : Char) :
    ∀ (l : List Char), ∀ p ∈ splitCh sep l, sep ∉ p := by
  intro l
  induction l with
  | nil =>
    intro p hp
    simp [splitCh] at hp
    simp [hp]
  | cons c r ih =>
    intro p hp
    rw [splitCh] at hp
    split at hp
    · rcases List.mem_cons.mp hp with rfl | hp
      · simp
      · exact ih p hp
    · next hc =>
      rcases hsp : splitCh sep r with _ | ⟨p0, ps⟩
      · exact absurd hsp (splitCh_ne_nil sep r)
      · rw [hsp] at hp
        rcases List.mem_cons.mp hp with rfl | hp
        · intro hmem
          rcases List.mem_cons.mp hmem with rfl | hmem
          · exact hc rfl
          · exact ih p0 (hsp ▸ List.mem_cons_self p0 ps) hmem
        · exact ih p (hsp ▸ List.mem_cons_of_mem p0 hp)

theorem splitCh_head_rel (sep : Char) (l : List Char) {p0 : List Char}
    {ps : List (List Char)} (h : splitCh sep l = p0 :: ps) {x : Char}
    (hx : p0.head? = some x) : l.head? = some x := by
  rcases l with _ | ⟨c, r⟩
  · simp [splitCh] at h
    rw [h.1] at hx
    simp at hx
  · rw [splitCh] at h
    split at h
    · cases h
      simp at hx
    · rcases hsp : splitCh sep r with _ | ⟨q0, qs⟩
      · exact absurd hsp (splitCh_ne_nil sep r)
      · rw [hsp] at h
        cases h
        simp at hx
        simp [hx]

theorem hasOpenB_take {l : List Char} (h : hasOpenB l = false) (k : Nat) :
    hasOpenB (l.take k) = false := by
  induction l generalizing k with
  | nil => simp [hasOpenB]
  | cons c r ih =>
    rcases k with _ | k'
    · simp [hasOpenB]
    · rw [List.take_succ_cons, hasOpenB_cons]
      rw [hasOpenB_cons] at h
      simp only [Bool.or_eq_false_iff, Bool.and_eq_false_iff,
        decide_eq_false_iff_not] at h ⊢
      obtain ⟨h1, h2⟩ := h
      refine ⟨?_, by simpa using ih h2 k'⟩
      rcases h1 with h1 | h1
      · exact Or.inl h1
      · rcases k' with _ | k''
        · exact Or.inr (by simp)
        · rw [head?_take r (by omega)]
          exact Or.inr h1

theorem splitCh_parts_open_free {l : List Char} (h : hasOpenB l = false) :
    ∀ p ∈ splitCh '\n' l, hasOpenB p = false := by
  induction l with
  | nil =>
    intro p hp
    simp [splitCh] at hp
    simp [hp, hasOpenB]
  | cons c r ih =>
    rw [hasOpenB_cons] at h
    simp only [Bool.or_eq_false_iff, Bool.and_eq_false_iff,
      decide_eq_false_iff_not] at h
    obtain ⟨h1, h2⟩ := h
    intro p hp
    rw [splitCh] at hp
    split at hp
    · rcases List.mem_cons.mp hp with rfl | hp
      · rfl
      · exact ih h2 p hp
    · rcases hsp : splitCh '\n' r with _ | ⟨p0, ps⟩
      · exact absurd hsp (splitCh_ne_nil '\n' r)
      · rw [hsp] at hp
        rcases List.mem_cons.mp hp with rfl | hp
        · rw [hasOpenB_cons]
          simp only [Bool.or_eq_false_iff, Bool.and_eq_false_iff,
            decide_eq_false_iff_not]
          refine ⟨?_, by simpa using ih h2 p0 (hsp ▸ List.mem_cons_self p0 ps)⟩
          rcases h1 with h1 | h1
          · exact Or.inl h1
          · refine Or.inr ?_
            intro hh
            exact h1 (splitCh_head_rel '\n' r hsp hh)
        · exact ih h2 p (hsp ▸ List.mem_cons_of_mem p0 hp)

theorem splitCh_self {sep : Char} {p : List Char} (h : sep ∉ p) :
    splitCh sep p = [p] := by
  induction p with
  | nil => rfl
  | cons c r ih =>
    rw [splitCh]
    have hc : ¬(c = sep) := by
      intro hc
      exact h (hc ▸ List.mem_cons_self c r)
    rw [if_neg hc, ih (fun hm => h (List.mem_cons_of_mem c hm))]

theorem splitCh_append_sep {sep : Char} {p t : List Char} (h : sep ∉ p) :
    splitCh sep (p ++ sep :: t) = p :: splitCh sep t := by
  induction p with
  | nil => simp [splitCh]
  | cons c r ih =>
    have hc : ¬(c = sep) := by
      intro hc
      exact h (hc ▸ List.mem_cons_self c r)
    rw [List.cons_append, splitCh, if_neg hc,
      ih (fun hm => h (List.mem_cons_of_mem c hm))]

theorem splitCh_joinCh {sep : Char} :
    ∀ {ps : List (List Char)}, ps ≠ [] → (∀ p ∈ ps, sep ∉ p) →
      splitCh sep (joinCh sep ps) = ps := by
  intro ps
  induction ps with
  | nil => intro h _; exact absurd rfl h
  | cons p ps ih =>
    intro _ hsep
    rcases hps : ps with _ | ⟨p2, ps2⟩
    · rw [joinCh]
      exact splitCh_self (hsep p (by simp))
    · rw [← hps]
      have hjoin : joinCh sep (p :: ps) = p ++ sep :: joinCh sep ps := by
        rw [hps]
        rfl
      rw [hjoin, splitCh_append_sep (hsep p (by simp))]
      rw [ih (by simp [hps]) (fun q hq => hsep q (List.mem_cons_of_mem p hq))]

theorem lineStrip_is_take (p : List Char) : ∃ k, lineStrip p = p.take k := by
  unfold lineStrip
  rcases hscan : scanCmt p none false none with _ | i
  · exact ⟨p.length, by simp⟩
  · obtain ⟨k, hk⟩ := rstripWs_eq_take (p.take i)
    refine ⟨min k i, ?_⟩
    show rstripWs (p.take i) = p.take (min k i)
    rw [hk, List.take_take]

/-- C8 amended: comment stripping is idempotent on every input that holds
no block-comment opener `/*`.  (In general removing a closed `/*...*/`
span can splice the surrounding text into a new `--` or `/*...*/`
occurrence that only a second pass would strip, as the counterexample
shows.) -/
theorem C8_strip_idem_without_opener (l : List Char) (h : hasOpenB l = false) :
    remove_comments (remove_comments l) = remove_comments l := by
  have hpartsOpen : ∀ p ∈ splitCh '\n' l, hasOpenB p = false :=
    splitCh_parts_open_free h
  have hpartsNoNl : ∀ p ∈ splitCh '\n' l, '\n' ∉ p := splitCh_no_sep '\n' l
  have hstrOpen : ∀ p ∈ (splitCh '\n' l).map lineStrip, hasOpenB p = false := by
    intro p hp
    obtain ⟨q, hq, rfl⟩ := List.mem_map.mp hp
    obtain ⟨k, hk⟩ := lineStrip_is_take q
    rw [hk]
    exact hasOpenB_take (hpartsOpen q hq) k
  have hstrNoNl : ∀ p ∈ (splitCh '\n' l).map lineStrip, '\n' ∉ p := by
    intro p hp hmem
    obtain ⟨q, hq, rfl⟩ := List.mem_map.mp hp
    obtain ⟨k, hk⟩ := lineStrip_is_take q
    rw [hk] at hmem
    exact hpartsNoNl q hq (List.take_subset k q hmem)
  have hjoinedOpen : hasOpenB (joinCh '\n' ((splitCh '\n' l).map lineStrip)) = false :=
    hasOpenB_joinCh hstrOpen
  have h1 : remove_comments l = joinCh '\n' ((splitCh '\n' l).map lineStrip) := by
    unfold remove_comments
    exact blockRemove_id hjoinedOpen
  have hmapne : (splitCh '\n' l).map lineStrip ≠ [] := by
    intro hnil
    exact splitCh_ne_nil '\n' l (List.map_eq_nil_iff.mp hnil)
  have hsplitJoined : splitCh '\n' (joinCh '\n' ((splitCh '\n' l).map lineStrip))
      = (splitCh '\n' l).map lineStrip :=
    splitCh_joinCh hmapne hstrNoNl
  have hmapIdem : ((splitCh '\n' l).map lineStrip).map lineStrip
      = (splitCh '\n' l).map lineStrip := by
    rw [List.map_map]
    refine List.map_congr_left ?_
    intro q _
    exact lineStrip_idem q
  rw [h1]
  unfold remove_comments
  rw [hsplitJoined, hmapIdem]
  exact blockRemove_id hjoinedOpen

/-- C8 counterexample: on the six-character input dash, empty block
comment, dash, one pass yields `--` (removing the block comment splices
the two dashes together) and a second pass then strips the resulting
line comment, so stripping twice differs from stripping once. -/
theorem C8_counterexample :
    remove_comments (remove_comments ("-/**/-".data)) ≠ remove_comments ("-/**/-".data)
      ∧ remove_comments ("-/**/-".data) = "--".data
      ∧ remove_comments (remove_comments ("-/**/-".data)) = [] := by
  refine ⟨?_, by decide, by decide⟩
  decide

/-- C8 witness: the amended idempotence applied to a plain query with a
line comment and no `/*`. -/
theorem C8_witness :
    remove_comments (remove_comments ("SELECT 1 -- c".data))
      = remove_comments ("SELECT 1 -- c".data) :=
  C8_strip_idem_without_opener ("SELECT 1 -- c".data) (by decide)

/-! ## Claim C3: the multiple-statement check -/

theorem mem_goB (x : Char) : ∀ (l : List Char) (m : BMode), x ∈ goB m l →
    x ∈ l ∨ x ∈ modeChars m := by
  intro l
  induction l with
  | nil =>
    intro m h
    cases m with
    | n => simp [goB] at h
    | nSlash =>
      simp [goB] at h
      simp [modeChars, h]
    | c acc =>
      simp [goB] at h
      simp [modeChars, h]
    | cStar acc =>
      simp [goB] at h
      simp [modeChars, h]
  | cons c r ih =>
    intro m h
    cases m with
    | n =>
      rw [goB] at h
      split at h
      · next hc =>
        rcases ih _ h with h' | h'
        · exact Or.inl (List.mem_cons_of_mem c h')
        · simp [modeChars] at h'
          subst h'
          exact Or.inl (by rw [hc]; exact List.mem_cons_self _ _)
      · rcases List.mem_cons.mp h with rfl | h'
        · exact Or.inl (List.mem_cons_self _ _)
        · rcases ih _ h' with h'' | h''
          · exact Or.inl (List.mem_cons_of_mem c h'')
          · simp [modeChars] at h''
    | nSlash =>
      rw [goB] at h
      split at h
      · next hc =>
        rcases ih _ h with h' | h'
        · exact Or.inl (List.mem_cons_of_mem c h')
        · simp [modeChars] at h'
          rcases h' with rfl | rfl
          · exact Or.inl (by rw [hc]; exact List.mem_cons_self _ _)
          · exact Or.inr (by simp [modeChars])
      · split at h
        · next hc =>
          rcases List.mem_cons.mp h with rfl | h'
          · exact Or.inr (by simp [modeChars])
          · rcases ih _ h' with h'' | h''
            · exact Or.inl (List.mem_cons_of_mem c h'')
            · simp [modeChars] at h''
              subst h''
              exact Or.inr (by simp [modeChars])
        · rcases List.mem_cons.mp h with rfl | h'
          · exact Or.inr (by simp [modeChars])
          · rcases List.mem_cons.mp h' with rfl | h''
            · exact Or.inl (List.mem_cons_self _ _)
            · rcases ih _ h'' with h3 | h3
              · exact Or.inl (List.mem_cons_of_mem c h3)
              · simp [modeChars] at h3
    | c acc =>
      rw [goB] at h
      split at h
      · next hc =>
        rcases ih _ h with h' | h'
        · exact Or.inl (List.mem_cons_of_mem c h')
        · simp [modeChars] at h'
          rcases h' with rfl | h'
          · exact Or.inl (by rw [hc]; exact List.mem_cons_self _ _)
          · exact Or.inr (by simp [modeChars, h'])
      · rcases ih _ h with h' | h'
        · exact Or.inl (List.mem_cons_of_mem c h')
        · simp [modeChars] at h'
          rcases h' with rfl | h'
          · exact Or.inl (List.mem_cons_self _ _)
          · exact Or.inr (by simp [modeChars, h'])
    | cStar acc =>
      rw [goB] at h
      split at h
      · rcases ih _ h with h' | h'
        · exact Or.inl (List.mem_cons_of_mem c h')
        · simp [modeChars] at h'
      · split at h
        · next hc =>
          rcases ih _ h with h' | h'
          · exact Or.inl (List.mem_cons_of_mem c h')
          · simp [modeChars] at h'
            rcases h' with rfl | h'
            · exact Or.inl (by rw [hc]; exact List.mem_cons_self _ _)
            · exact Or.inr (by simp [modeChars, h'])
        · rcases ih _ h with h' | h'
          · exact Or.inl (List.mem_cons_of_mem c h')
          · simp [modeChars] at h'
            rcases h' with rfl | h'
            · exact Or.inl (List.mem_cons_self _ _)
            · exact Or.inr (by simp [modeChars, h'])

theorem mem_blockRemove {x : Char} {l : List Char} (h : x ∈ blockRemove l) : x ∈ l := by
  rcases mem_goB x l .n h with h' | h'
  · exact h'
  · simp [modeChars] at h'

theorem mem_joinCh {x : Char} {sep : Char} :
    ∀ {ps : List (List Char)}, x ∈ joinCh sep ps → x = sep ∨ ∃ p ∈ ps, x ∈ p := by
  intro ps
  induction ps with
  | nil => intro h; simp [joinCh] at h
  | cons p ps ih =>
    intro h
    cases ps with
    | nil =>
      simp [joinCh] at h
      exact Or.inr ⟨p, by simp, h⟩
    | cons p2 ps2 =>
      rw [show joinCh sep (p :: p2 :: ps2) = p ++ sep :: joinCh sep (p2 :: ps2) from rfl] at h
      rcases List.mem_append.mp h with h' | h'
      · exact Or.inr ⟨p, by simp, h'⟩
      · rcases List.mem_cons.mp h' with rfl | h'
        · exact Or.inl rfl
        · rcases ih h' with h'' | ⟨q, hq, hxq⟩
          · exact Or.inl h''
          · exact Or.inr ⟨q, List.mem_cons_of_mem p hq, hxq⟩

theorem mem_splitCh {sep x : Char} :
    ∀ (l : List Char) (p : List Char), p ∈ splitCh sep l → x ∈ p → x ∈ l := by
  intro l
  induction l with
  | nil =>
    intro p hp hx
    simp [splitCh] at hp
    rw [hp] at hx
    simp at hx
  | cons c r ih =>
    intro p hp hx
    rw [splitCh] at hp
    split at hp
    · rcases List.mem_cons.mp hp with rfl | hp
      · simp at hx
      · exact List.mem_cons_of_mem c (ih p hp hx)
    · rcases hsp : splitCh sep r with _ | ⟨p0, ps⟩
      · exact absurd hsp (splitCh_ne_nil sep r)
      · rw [hsp] at hp
        rcases List.mem_cons.mp hp with rfl | hp
        · rcases List.mem_cons.mp hx with rfl | hx
          · exact List.mem_cons_self _ _
          · exact List.mem_cons_of_mem c (ih p0 (hsp ▸ List.mem_cons_self p0 ps) hx)
        · exact List.mem_cons_of_mem c (ih p (hsp ▸ List.mem_cons_of_mem p0 hp) hx)

theorem mem_lineStrip {x : Char} {p : List Char} (h : x ∈ lineStrip p) : x ∈ p := by
  obtain ⟨k, hk⟩ := lineStrip_is_take p
  rw [hk] at h
  exact List.take_subset k p h

/-- Every character of the comment-stripped text is a character of the
original query or an inserted line separator. -/
theorem mem_remove_comments {x : Char} {q : List Char}
    (h : x ∈ remove_comments q) : x ∈ q ∨ x = '\n' := by
  unfold remove_comments at h
  rcases mem_joinCh (mem_blockRemove h) with h' | ⟨p, hp, hxp⟩
  · exact Or.inr h'
  · obtain ⟨p0, hp0, rfl⟩ := List.mem_map.mp hp
    exact Or.inl (mem_splitCh q p0 hp0 (mem_lineStrip hxp))

theorem countCh_dropWhileWs {ch : Char} (h : isWS ch = false) (l : List Char) :
    countCh ch (l.dropWhile isWS) = countCh ch l := by
  unfold countCh
  conv_rhs => rw [← List.takeWhile_append_dropWhile (p := isWS) (l := l)]
  rw [List.count_append]
  have : (l.takeWhile isWS).count ch = 0 := by
    rw [List.count_eq_zero]
    intro hmem
    rw [List.mem_takeWhile_imp hmem] at h
    exact absurd h (by simp)
  omega

theorem countCh_stripWs {ch : Char} (h : isWS ch = false) (l : List Char) :
    countCh ch (stripWs l) = countCh ch l := by
  unfold stripWs rstripWs lstripWs
  unfold countCh
  rw [List.count_reverse]
  have h1 := countCh_dropWhileWs h (l.dropWhile isWS).reverse
  unfold countCh at h1
  rw [h1, List.count_reverse]
  have h2 := countCh_dropWhileWs h l
  unfold countCh at h2
  exact h2

theorem hasQ_cons {c : Char} {r : List Char} :
    hasQ (c :: r) = ((c = ';' && r.any goodCh) || hasQ r) := rfl

theorem nonBlank_cons {c : Char} {p : List Char} :
    nonBlank (c :: p) = (!(isWS c) || nonBlank p) := rfl

/-- A non-blank part somewhere in the split means the text has a good
character. -/
theorem any_goodCh_of_nonblank_part :
    ∀ (l : List Char), 1 ≤ ((splitCh ';' l).filter nonBlank).length →
      l.any goodCh = true := by
  intro l
  induction l with
  | nil =>
    intro h
    simp [splitCh, nonBlank] at h
  | cons c r ih =>
    intro h
    rw [splitCh] at h
    by_cases hc : c = ';'
    · rw [if_pos hc] at h
      have : ((splitCh ';' r).filter nonBlank).length ≥ 1 := by
        simpa [List.filter, nonBlank] using h
      simp only [List.any_cons, Bool.or_eq_true]
      exact Or.inr (ih this)
    · rw [if_neg hc] at h
      rcases hsp : splitCh ';' r with _ | ⟨p0, ps⟩
      · exact absurd hsp (splitCh_ne_nil ';' r)
      · rw [hsp] at h
        by_cases hws : isWS c
        · have hnb : nonBlank (c :: p0) = nonBlank p0 := by
            rw [nonBlank_cons, hws]
            simp
          rw [List.filter_cons, hnb] at h
          have hr : 1 ≤ ((splitCh ';' r).filter nonBlank).length := by
            rw [hsp, List.filter_cons]
            by_cases hb : nonBlank p0 = true
            · rw [if_pos hb] at h ⊢
              simp only [List.length_cons] at h ⊢
              omega
            · rw [if_neg hb] at h ⊢
              exact h
          simp only [List.any_cons, Bool.or_eq_true]
          exact Or.inr (ih hr)
        · simp only [List.any_cons, Bool.or_eq_true]
          exact Or.inl (by simp [goodCh, hws, hc])

/-- A non-blank part strictly after the first split part means the text
holds a semicolon followed by a good character. -/
theorem hasQ_of_tail_part :
    ∀ (r p : List Char) (ps : List (List Char)), splitCh ';' r = p :: ps →
      1 ≤ (ps.filter nonBlank).length → hasQ r = true := by
  intro r
  induction r with
  | nil =>
    intro p ps hp h
    simp [splitCh] at hp
    rw [hp.2] at h
    simp at h
  | cons c r' ih =>
    intro p ps hp h
    rw [splitCh] at hp
    by_cases hc : c = ';'
    · rw [if_pos hc] at hp
      injection hp with hp1 hp2
      rw [hasQ_cons]
      simp only [Bool.or_eq_true, Bool.and_eq_true, decide_eq_true_eq]
      refine Or.inl ⟨hc, any_goodCh_of_nonblank_part r' ?_⟩
      rw [hp2]
      exact h
    · rw [if_neg hc] at hp
      rcases hsp : splitCh ';' r' with _ | ⟨p0, ps0⟩
      · exact absurd hsp (splitCh_ne_nil ';' r')
      · rw [hsp] at hp
        injection hp with hp1 hp2
        rw [hasQ_cons]
        simp only [Bool.or_eq_true]
        refine Or.inr (ih p0 ps0 hsp ?_)
        rw [hp2]
        exact h

/-- Two non-blank semicolon-delimited parts force the `hasQ` shape. -/
theorem hasQ_of_two_parts :
    ∀ (l : List Char), 2 ≤ ((splitCh ';' l).filter nonBlank).length →
      hasQ l = true := by
  intro l
  induction l with
  | nil =>
    intro h
    simp [splitCh, nonBlank] at h
  | cons c r ih =>
    intro h
    rw [splitCh] at h
    by_cases hc : c = ';'
    · rw [if_pos hc] at h
      have hr : 1 ≤ ((splitCh ';' r).filter nonBlank).length := by
        have : ((splitCh ';' r).filter nonBlank).length ≥ 2 := by
          simpa [List.filter, nonBlank] using h
        omega
      rw [hasQ_cons]
      simp only [Bool.or_eq_true, Bool.and_eq_true, decide_eq_true_eq]
      exact Or.inl ⟨hc, any_goodCh_of_nonblank_part r hr⟩
    · rw [if_neg hc] at h
      rcases hsp : splitCh ';' r with _ | ⟨p0, ps⟩
      · exact absurd hsp (splitCh_ne_nil ';' r)
      · rw [hsp] at h
        rw [hasQ_cons]
        simp only [Bool.or_eq_true]
        refine Or.inr ?_
        by_cases hnb : nonBlank (c :: p0) = true
        · rw [List.filter_cons, if_pos hnb] at h
          simp only [List.length_cons] at h
          exact hasQ_of_tail_part r p0 ps hsp (by omega)
        · rw [List.filter_cons, if_neg hnb] at h
          have hnb0 : nonBlank p0 = false := by
            rcases hb : nonBlank p0
            · rfl
            · exact absurd (by rw [nonBlank_cons, hb]; simp) hnb
          apply ih
          rw [hsp, List.filter_cons, if_neg (by simp [hnb0])]
          exact h

theorem hasQ_all_ws {w : List Char} (hw : ∀ x ∈ w, isWS x = true) :
    hasQ w = false := by
  induction w with
  | nil => rfl
  | cons c r ih =>
    rw [hasQ_cons]
    have hcw : isWS c = true := hw c (List.mem_cons_self c r)
    have hc : ¬(c = ';') := by
      intro hc
      rw [hc] at hcw
      exact absurd hcw (by decide)
    simp only [Bool.or_eq_false_iff, Bool.and_eq_false_iff]
    exact ⟨Or.inl (by simp [hc]), ih (fun x hx => hw x (List.mem_cons_of_mem c hx))⟩

theorem any_goodCh_all_ws {w : List Char} (hw : ∀ x ∈ w, isWS x = true) :
    w.any goodCh = false := by
  rcases ha : w.any goodCh
  · rfl
  · obtain ⟨x, hx, hgx⟩ := List.any_eq_true.mp ha
    unfold goodCh at hgx
    rw [hw x hx] at hgx
    simp at hgx

theorem hasQ_append_ws {a w : List Char} (hw : ∀ x ∈ w, isWS x = true)
    (h : hasQ (a ++ w) = true) : hasQ a = true := by
  induction a with
  | nil => exact absurd (by simpa using h) (by simp [hasQ_all_ws hw])
  | cons c a' ih =>
    rw [List.cons_append, hasQ_cons] at h
    rcases Bool.or_eq_true_iff.mp h with h' | h'
    · simp only [Bool.and_eq_true, decide_eq_true_eq] at h'
      rw [List.any_append] at h'
      rw [hasQ_cons]
      simp only [Bool.or_eq_true, Bool.and_eq_true, decide_eq_true_eq]
      rcases Bool.or_eq_true_iff.mp h'.2 with h'' | h''
      · exact Or.inl ⟨h'.1, h''⟩
      · exact absurd h'' (by simp [any_goodCh_all_ws hw])
    · rw [hasQ_cons]
      simp only [Bool.or_eq_true]
      exact Or.inr (ih h')

theorem rstripWs_split (l : List Char) :
    l = rstripWs l ++ (l.reverse.takeWhile isWS).reverse := by
  unfold rstripWs
  calc l = l.reverse.reverse := by rw [List.reverse_reverse]
  _ = (l.reverse.takeWhile isWS ++ l.reverse.dropWhile isWS).reverse := by
      rw [List.takeWhile_append_dropWhile]
  _ = (l.reverse.dropWhile isWS).reverse ++ (l.reverse.takeWhile isWS).reverse := by
      rw [List.reverse_append]

theorem hasQ_rstripWs {l : List Char} (h : hasQ l = true) :
    hasQ (rstripWs l) = true := by
  have hw : ∀ x ∈ (l.reverse.takeWhile isWS).reverse, isWS x = true := by
    intro x hx
    exact List.mem_takeWhile_imp (List.mem_reverse.mp hx)
  refine hasQ_append_ws hw ?_
  rw [← rstripWs_split l]
  exact h

theorem hasQ_lstripWs {l : List Char} (h : hasQ l = true) :
    hasQ (lstripWs l) = true := by
  unfold lstripWs
  induction l with
  | nil => simp [hasQ] at h
  | cons c r ih =>
    by_cases hws : isWS c = true
    · rw [List.dropWhile_cons_of_pos hws]
      rw [hasQ_cons] at h
      rcases Bool.or_eq_true_iff.mp h with h' | h'
      · simp only [Bool.and_eq_true, decide_eq_true_eq] at h'
        rw [h'.1] at hws
        exact absurd hws (by decide)
      · exact ih h'
    · rw [List.dropWhile_cons_of_neg (by simpa using hws)]
      exact h

theorem hasQ_stripWs {l : List Char} (h : hasQ l = true) :
    hasQ (stripWs l) = true :=
  hasQ_rstripWs (hasQ_lstripWs h)

theorem hasQ_exists {l : List Char} (h : hasQ l = true) :
    ∃ a b, l = a ++ ';' :: b ∧ b.any goodCh = true := by
  induction l with
  | nil => simp [hasQ] at h
  | cons c r ih =>
    rw [hasQ_cons] at h
    rcases Bool.or_eq_true_iff.mp h with h' | h'
    · simp only [Bool.and_eq_true, decide_eq_true_eq] at h'
      exact ⟨[], r, by rw [h'.1]; rfl, h'.2⟩
    · obtain ⟨a, b, rfl, hb⟩ := ih h'
      exact ⟨c :: a, b, rfl, hb⟩

theorem dropWhile_append_keep {p : Char → Bool} {x : Char} (hx : p x = false) :
    ∀ (u t : List Char), ∃ pre, (u ++ x :: t).dropWhile p = pre ++ x :: t := by
  intro u t
  induction u with
  | nil =>
    refine ⟨[], ?_⟩
    rw [List.nil_append, List.dropWhile_cons_of_neg (by simp [hx])]
  | cons c u' ih =>
    by_cases hc : p c = true
    · rw [List.cons_append, List.dropWhile_cons_of_pos hc]
      exact ih
    · refine ⟨c :: u', ?_⟩
      rw [List.cons_append, List.dropWhile_cons_of_neg (by simpa using hc)]

theorem count_semi_rstripSemi {l : List Char} (h : hasQ l = true) :
    1 ≤ countCh ';' (rstripSemi l) := by
  obtain ⟨a, b, rfl, hany⟩ := hasQ_exists h
  obtain ⟨x, hxb, hgx⟩ := List.any_eq_true.mp hany
  obtain ⟨b1, b2, rfl⟩ := List.append_of_mem hxb
  have hxsemi : (fun c => decide (c = ';')) x = false := by
    unfold goodCh at hgx
    simp only [Bool.and_eq_true, Bool.not_eq_true'] at hgx
    exact hgx.2
  have hrev : (a ++ ';' :: (b1 ++ x :: b2)).reverse
      = b2.reverse ++ x :: (b1.reverse ++ ';' :: a.reverse) := by
    simp
  unfold rstripSemi countCh
  rw [hrev]
  obtain ⟨pre, hpre⟩ := dropWhile_append_keep (p := fun c => decide (c = ';')) (x := x)
    hxsemi b2.reverse (b1.reverse ++ ';' :: a.reverse)
  rw [hpre]
  rw [List.count_reverse, List.count_append]
  have : 1 ≤ List.count ';' (x :: (b1.reverse ++ ';' :: a.reverse)) := by
    rw [List.one_le_count_iff]
    exact List.mem_cons_of_mem x (List.mem_append_right _ (List.mem_cons_self _ _))
  omega

/-- Two non-blank statements in the comment-stripped text leave at least
one semicolon after the validator's whitespace/trailing-semicolon
stripping. -/
theorem semiCountOf_pos {q : List Char}
    (h2 : 2 ≤ ((splitCh ';' (remove_comments q)).filter nonBlank).length) :
    1 ≤ semiCountOf q := by
  have hq : hasQ (remove_comments q) = true := hasQ_of_two_parts _ h2
  have hq2 : hasQ (stripWs (remove_comments q)) = true := hasQ_stripWs hq
  have hq3 : 1 ≤ countCh ';' (rstripSemi (stripWs (remove_comments q))) :=
    count_semi_rstripSemi hq2
  unfold semiCountOf
  rw [countCh_stripWs (by decide)]
  exact hq3

/-- C3 amended: for every SQL text that passes the validator's earlier
checks — non-empty and beginning (whitespace-trimmed,
case-insensitively) with SELECT or WITH — and whose comment-stripped
form consists of more than one non-blank semicolon-delimited statement,
`validate` fails with the multiple-statements message and no other. -/
theorem C3_multi_statement_rejected (parsedChecks : List Char → Bool × List Char)
    (q : List Char)
    (hstart : (prefixOf "SELECT".data ((stripWs q).map Char.toUpper)
        || prefixOf "WITH".data ((stripWs q).map Char.toUpper)) = true)
    (hmulti : 2 ≤ ((splitCh ';' (remove_comments q)).filter nonBlank).length) :
    ∃ n, 2 ≤ n ∧ validate parsedChecks q = (false, multiMsg n) := by
  obtain ⟨x, hxmem, hxgood⟩ :=
    List.any_eq_true.mp (any_goodCh_of_nonblank_part (remove_comments q) (by omega))
  have hxq : x ∈ q := by
    rcases mem_remove_comments hxmem with h | h
    · exact h
    · unfold goodCh at hxgood
      rw [h] at hxgood
      exact absurd hxgood (by decide)
  have hqne : ¬(q = []) := by
    intro h
    rw [h] at hxq
    simp at hxq
  have hxws : isWS x = false := by
    unfold goodCh at hxgood
    simp only [Bool.and_eq_true, Bool.not_eq_true'] at hxgood
    exact hxgood.1
  have hstripne : ¬(stripWs q = []) := by
    intro h
    have hcnt : 1 ≤ countCh x q := by
      unfold countCh
      rw [List.one_le_count_iff]
      exact hxq
    rw [← countCh_stripWs hxws q, h] at hcnt
    simp [countCh] at hcnt
  have hcount : 1 ≤ semiCountOf q := semiCountOf_pos hmulti
  refine ⟨semiCountOf q + 1, by omega, ?_⟩
  unfold validate
  rw [if_neg (by simp [hqne, hstripne])]
  rw [if_neg (by simp only [hstart, Bool.not_true]; simp)]
  unfold check_multiple_statements
  rw [if_pos (by omega)]

/-- C3 counterexample: `DELETE FROM a; DELETE FROM b` consists of two
non-blank semicolon-delimited statements, yet `validate` rejects it with
the SELECT/WITH-prefix message — which is never the multiple-statements
message — because the prefix check runs first. -/
theorem C3_counterexample :
    2 ≤ ((splitCh ';' (remove_comments ("DELETE FROM a; DELETE FROM b".data))).filter
        nonBlank).length
    ∧ validate (fun _ => (true, [])) ("DELETE FROM a; DELETE FROM b".data)
        = (false, ("Only SELECT queries are allowed. Query must start with SELECT or WITH "
            ++ "(for CTEs)").data)
    ∧ ∀ n : Nat,
        ("Only SELECT queries are allowed. Query must start with SELECT or WITH "
          ++ "(for CTEs)").data ≠ multiMsg n := by
  refine ⟨by decide, by decide, ?_⟩
  intro n heq
  have h1 : (("Only SELECT queries are allowed. Query must start with SELECT or WITH "
      ++ "(for CTEs)").data).head? = some 'O' := rfl
  have h2 : (multiMsg n).head? = some 'M' := rfl
  rw [heq, h2] at h1
  exact absurd h1 (by decide)

/-- C3 witness: the amended theorem applied to `SELECT 1; SELECT 2`. -/
theorem C3_witness :
    ∃ n, 2 ≤ n ∧ validate (fun _ => (true, [])) ("SELECT 1; SELECT 2".data)
        = (false, multiMsg n) :=
  C3_multi_statement_rejected (fun _ => (true, [])) ("SELECT 1; SELECT 2".data)
    (by decide) (by decide)
